import Mathlib

/-!
# A shallow embedding of `fsys.c`

`fsys.c` implements a flat file system on a block store: block 0 holds the
directory as text (`name:head;name:head;...`), every other block is either the
free marker `-100` or a four digit next-pointer followed by payload text.

Modelling conventions.

* Every access `fsys.c` makes to a block goes through the C string functions
  (`strlen`, `strcmp`, `strtok`, `atoi`, `sprintf "%s"`), so a block is
  represented by its text: the bytes before the first NUL of the block.
  Bytes are natural numbers (character codes), texts are lists of bytes.
* Operations return `Option`.  `none` stands for "the source does not determine
  a result": a read past the terminator of a text or outside an array, a block
  index outside the store, a text that does not fit its `BLOCK_SIZE` buffer, or
  a loop that was given too little fuel.  Result codes of the C functions
  (zero, byte counts, the negative error codes) are ordinary values inside
  `some`.
* `sprintf(dst, "%s...", dst, ...)` is read as the author reads it: the
  arguments are formatted as the texts they hold before the call.
* Loops that follow next-pointers take a `fuel` argument, one unit per
  iteration of the C loop.
* C integers are `Int` and `Nat` without wrap-around: block numbers, offsets
  and byte counts stay below `DISK_BLOCKS * BLOCK_SIZE`, far inside the range
  of `int`.  The one number that comes from a text of any length is the head
  in a directory record: `atoi` has a result only when that number is
  representable in `int`.  The `off_t` arguments of `fs_lseek` and
  `fs_truncate` are taken non-negative (`Nat`); a block number is an `Int`,
  since the source stores negative codes in `blk_num`.
-/

namespace FSys

/-- A text is the content of a C string, without its terminator. -/
abbrev Text := List Nat

/-- Modelled from the spec: `fsys.h` and `disk.h` are not part of the source
tree, so the block geometry (`BLOCK_SIZE`, `DISK_BLOCKS`), the table and name
bounds (`MAX_DESC`, `FILENAME_SIZE`) and the result codes they declare are
fields of a configuration. -/
structure Config where
  BLOCK_SIZE : Nat
  DISK_BLOCKS : Nat
  MAX_DESC : Nat
  FILENAME_SIZE : Nat
  ALREADY_OPEN : Int
  VERY_DESCRIPTION : Int
  BAD_FILDES : Int
  NAME_TOO_LARGE : Int
  FILE_EXISTS : Int
  SO_MUCH_FILE : Int
  NO_FILE : Int
  NO_BLOCKS : Int
  LSEEK_OUT_OF_BOUNDS : Int

/-- Block id of the meta block (`#define METABL 0`). -/
def METABL : Nat := 0

/-- The free marker `"-100"` (`#define FREESTR "-100"`). -/
def FREESTR : Text := [45, 49, 48, 48]

/-- Number of reserved characters at the start of a block (`#define BLK_META_SIZE 5`). -/
def BLK_META_SIZE : Nat := 5

/-- Largest size of one directory entry (`#define MAX_KV_SIZE 15 + BLK_META_SIZE + 2`). -/
def MAX_KV_SIZE : Nat := 15 + BLK_META_SIZE + 2

/-- The configuration the spec describes: 4096 blocks of 128 bytes, names of
at most 15 characters.  Modelled from the spec: the descriptor bound and the
numeric values of the result codes are not given there; they are chosen
distinct and negative, as the source's `< 0` tests assume. -/
def specConfig : Config where
  BLOCK_SIZE := 128
  DISK_BLOCKS := 4096
  MAX_DESC := 32
  FILENAME_SIZE := 15
  ALREADY_OPEN := -2
  VERY_DESCRIPTION := -3
  BAD_FILDES := -4
  NAME_TOO_LARGE := -5
  FILE_EXISTS := -6
  SO_MUCH_FILE := -7
  NO_FILE := -8
  NO_BLOCKS := -9
  LSEEK_OUT_OF_BOUNDS := -10

/-- What the source assumes of the header constants: a block has room for the
reserved prefix and at least one payload byte, a block index prints in four
digits, and the error codes are negative. -/
def Config.ok (c : Config) : Prop :=
  BLK_META_SIZE < c.BLOCK_SIZE ∧ c.DISK_BLOCKS ≤ 10000 ∧
  c.ALREADY_OPEN < 0 ∧ c.VERY_DESCRIPTION < 0 ∧ c.BAD_FILDES < 0 ∧
  c.NAME_TOO_LARGE < 0 ∧ c.FILE_EXISTS < 0 ∧ c.SO_MUCH_FILE < 0 ∧
  c.NO_FILE < 0 ∧ c.NO_BLOCKS < 0 ∧ c.LSEEK_OUT_OF_BOUNDS < 0

instance (c : Config) : Decidable c.ok := by
  unfold Config.ok; infer_instance

/-- Payload capacity of one block: `BLOCK_SIZE - BLK_META_SIZE`. -/
def Config.capacity (c : Config) : Nat := c.BLOCK_SIZE - BLK_META_SIZE

/-! ## C library functions on texts -/

/-- The text held by a caller's buffer: its bytes up to the first NUL. -/
def cstr (buf : List Nat) : Text := buf.takeWhile (fun ch => ch ≠ 0)

/-- C `strlen`. -/
def strlen (buf : List Nat) : Nat := (cstr buf).length

/-- The macro `isfree(buff)`: `strcmp(buff, FREESTR) == 0`. -/
def isfree (buff : Text) : Bool := decide (buff = FREESTR)

/-- C `isspace` in the "C" locale. -/
def isspace (ch : Nat) : Bool := ch = 32 || (9 ≤ ch && ch ≤ 13)

/-- C `isdigit`. -/
def isdigit (ch : Nat) : Bool := 48 ≤ ch && ch ≤ 57

/-- The digit loop of `atoi`. -/
def atoi_digits : Nat → Text → Nat
  | acc, [] => acc
  | acc, ch :: rest => if isdigit ch then atoi_digits (acc * 10 + (ch - 48)) rest else acc

/-- The number `atoi` reads from a text: optional white space, optional sign,
decimal digits. -/
def atoi_number (s : Text) : Int :=
  let t := s.dropWhile isspace
  if t.head? = some 45 then -((atoi_digits 0 t.tail : Nat) : Int)
  else if t.head? = some 43 then ((atoi_digits 0 t.tail : Nat) : Int)
  else ((atoi_digits 0 t : Nat) : Int)

/-- C `atoi`.  It returns an `int` (32 bits): it has a result when the number
read is representable, and none otherwise (the C standard leaves that case
undefined; glibc returns the number reduced modulo `2^32`). -/
def atoi (s : Text) : Option Int :=
  if -2147483648 ≤ atoi_number s ∧ atoi_number s ≤ 2147483647 then some (atoi_number s)
  else none

/-- Decimal digits of `n`, most significant first (`fuel` bounds the number of
digits). -/
def dec_digits : Nat → Nat → Text
  | 0, n => [48 + n % 10]
  | fuel + 1, n => if n < 10 then [48 + n] else dec_digits fuel (n / 10) ++ [48 + n % 10]

/-- The conversion `%ld` of `sprintf`, for a non-negative argument. -/
def fmt_ld (n : Nat) : Text := dec_digits n n

/-- The conversion `%04ld` of `sprintf`, for a non-negative argument. -/
def fmt_04ld (n : Nat) : Text :=
  List.replicate (4 - (fmt_ld n).length) 48 ++ fmt_ld n

/-- The tokens successive calls `strtok(buff, ";")`, `strtok(NULL, ";")`, ...
return: the maximal non-empty runs of bytes other than `;`.  `cur` is the run
being read. -/
def strtok_run : Text → Text → List Text
  | cur, [] => if cur = [] then [] else [cur]
  | cur, ch :: rest =>
    if ch = 59 then (if cur = [] then strtok_run [] rest else cur :: strtok_run [] rest)
    else strtok_run (cur ++ [ch]) rest

/-- All tokens of a text. -/
def strtok_all (buff : Text) : List Text := strtok_run [] buff

/-- The comparison `strncmp(a, b, n) == 0` on texts. -/
def strncmp_eq (a b : Text) (n : Nat) : Bool := decide (a.take n = b.take n)

/-- C `strncpy(buf, src, n)` into a caller's array `buf`: `n` bytes are
written, the text of `src` padded with NULs. -/
def strncpy (buf : List Nat) (src : Text) (n : Nat) : Option (List Nat) :=
  if n ≤ buf.length then
    some (src.take n ++ List.replicate (n - src.length) 0 ++ buf.drop n)
  else none

/-- C `strncat(buf, src, n)` into a caller's array `buf`: at most `n` bytes of
`src` and a terminator are written at the first NUL of `buf`. -/
def strncat (buf : List Nat) (src : Text) (n : Nat) : Option (List Nat) :=
  let p := strlen buf
  let k := min n src.length
  if p + k < buf.length then
    some (buf.take p ++ src.take k ++ [0] ++ buf.drop (p + k + 1))
  else none

/-- The text a pointer `buff + k` designates, defined while `k` does not pass
the terminator of `buff`. -/
def text_from (buff : Text) (k : Nat) : Option Text :=
  if k ≤ buff.length then some (buff.drop k) else none

/-! ## State -/

/-- The block store: the text of every block. -/
abbrev Disk := Nat → Text

/-- An open file (`struct fildes`): name, current block, offset in the block. -/
structure fildes where
  fname : Text
  blk_num : Int
  blk_off : Nat
deriving DecidableEq, Repr

/-- The table of open files (`struct fildes_table`). -/
structure fildes_table where
  fds : Nat → Option fildes
  num_open : Int

/-- The whole state: the mounted disk and the global `open_fildes`. -/
structure Volume where
  disk : Disk
  open_fildes : fildes_table

/-- Store `f` in slot `fd` of the table. -/
def fildes_table.set (t : fildes_table) (fd : Nat) (f : Option fildes) : fildes_table :=
  { t with fds := fun i => if i = fd then f else t.fds i }

/-- Replace the open file in slot `fd` and the disk. -/
def Volume.put (s : Volume) (disk : Disk) (fd : Nat) (f : fildes) : Volume :=
  { disk := disk, open_fildes := s.open_fildes.set fd (some f) }

/-! ## Block store -/

/-- The disk after block `b` has been overwritten with the text `t`. -/
def disk_set (disk : Disk) (b : Nat) (t : Text) : Disk :=
  fun i => if i = b then t else disk i

/-- The call `block_read(block, buff)`: the text of the block, for an index of the
store. -/
def block_read (c : Config) (disk : Disk) (block : Int) : Option Text :=
  if 0 ≤ block ∧ block < c.DISK_BLOCKS then some (disk block.toNat) else none

/-- The call `block_write(block, buff)`, for an index of the store and a text that
fits a `BLOCK_SIZE` buffer with its terminator. -/
def block_write (c : Config) (disk : Disk) (block : Int) (buff : Text) : Option Disk :=
  if 0 ≤ block ∧ block < c.DISK_BLOCKS ∧ buff.length < c.BLOCK_SIZE then
    some (disk_set disk block.toNat buff)
  else none

/-- The disk `make_fs` leaves: every block from 1 on holds the free marker.
Modelled from the spec: `make_disk` belongs to the absent block store and is
taken to zero the disk, so the directory block starts as the empty text. -/
def make_fs : Disk := fun i => if i = 0 then [] else FREESTR

/-- The state after `make_fs` and `mount_fs` with no file open. -/
def fresh : Volume :=
  { disk := make_fs, open_fildes := { fds := fun _ => none, num_open := 0 } }

/-! ## Helper functions of `fsys.c` -/

/-- The loop of `get_free_bl`: `i` runs upwards, `n` blocks remain to be tried. -/
def get_free_bl_loop (c : Config) (disk : Disk) : Nat → Nat → Int
  | 0, _ => c.NO_BLOCKS
  | n + 1, i => if isfree (disk i) then (i : Int) else get_free_bl_loop c disk n (i + 1)

/-- Searches through the disk for the first available block. -/
def get_free_bl (c : Config) (disk : Disk) : Int :=
  get_free_bl_loop c disk (c.DISK_BLOCKS - 1) 1

/-- Returns the file of a descriptor: `some none` is `NULL`. -/
def get_file (c : Config) (t : fildes_table) (fd : Int) : Option (Option fildes) :=
  if fd < 0 ∨ fd > c.MAX_DESC then some none
  else if fd < c.MAX_DESC then some (t.fds fd.toNat)
  else none

/-- Initialize a new block: its text becomes `"0000"`. -/
def build_block (c : Config) (disk : Disk) (block_id : Int) : Option Disk :=
  if 0 ≤ block_id ∧ block_id < c.DISK_BLOCKS then
    some (disk_set disk block_id.toNat [48, 48, 48, 48])
  else none

/-- The token loop of `get_head`: in each token the name ends at the first
`:`; the first token whose name equals `fname` up to `FILENAME_SIZE` bytes
gives the head. -/
def get_head_scan (c : Config) (fname : Text) : List Text → Option Int
  | [] => some c.NO_FILE
  | kv :: rest =>
    let key := kv.takeWhile (fun ch => ch ≠ 58)
    if key.length < kv.length then
      if strncmp_eq fname key c.FILENAME_SIZE then atoi (kv.drop (key.length + 1))
      else get_head_scan c fname rest
    else none

/-- Returns the first block of the block list of the given file. -/
def get_head (c : Config) (disk : Disk) (fname : List Nat) : Option Int := do
  let buff ← block_read c disk 0
  get_head_scan c (cstr fname) (strtok_all buff)

/-- Get the next block that `init_blk` refers to. -/
def get_next_blk (c : Config) (disk : Disk) (init_blk : Int) : Option Int := do
  let buff ← block_read c disk init_blk
  atoi (buff.take (BLK_META_SIZE - 1))

/-- Checks whether the given file is open. -/
def is_open (c : Config) (t : fildes_table) (filename : List Nat) : Int :=
  if (List.range c.MAX_DESC).any (fun i =>
      match t.fds i with
      | some f => strncmp_eq (cstr filename) f.fname c.FILENAME_SIZE
      | none => false)
  then 1 else 0

/-! ## The file operations -/

/-- Opens the given virtual file. -/
def fs_open (c : Config) (s : Volume) (name : List Nat) : Option (Int × Volume) :=
  if is_open c s.open_fildes name = 1 then some (c.ALREADY_OPEN, s)
  else if s.open_fildes.num_open ≥ c.MAX_DESC then some (c.VERY_DESCRIPTION, s)
  else
    match (List.range c.MAX_DESC).find? (fun fd => (s.open_fildes.fds fd).isNone) with
    | none => none
    | some fd => do
      let head ← get_head c s.disk name
      let new : fildes :=
        { fname := (cstr name).take c.FILENAME_SIZE, blk_num := head, blk_off := 0 }
      some ((fd : Int),
        { disk := s.disk,
          open_fildes :=
            { fds := fun i => if i = fd then some new else s.open_fildes.fds i,
              num_open := s.open_fildes.num_open + 1 } })

/-- Creates a new file. -/
def fs_create (c : Config) (s : Volume) (name : List Nat) : Option (Int × Volume) :=
  if strlen name > c.FILENAME_SIZE then some (c.NAME_TOO_LARGE, s)
  else
    let block := get_free_bl c s.disk
    if block < 0 then some (block, s)
    else do
      let head ← get_head c s.disk name
      if head ≠ c.NO_FILE then some (c.FILE_EXISTS, s)
      else
        let buff ← block_read c s.disk 0
        if c.BLOCK_SIZE ≤ buff.length then none
        else if c.BLOCK_SIZE - buff.length ≤ MAX_KV_SIZE then some (c.SO_MUCH_FILE, s)
        else
          let disk1 ← block_write c s.disk 0
            (buff ++ cstr name ++ [58] ++ fmt_ld block.toNat ++ [59])
          let disk2 ← build_block c disk1 block
          some (0, { s with disk := disk2 })

/-- The `while` loop of `fs_read`, entered after the first block gave fewer
than `nbyte` bytes.  `read` is the count first asked for.  The result is the
return value, the caller's buffer and the block number left in the handle. -/
def fs_read_loop (c : Config) (disk : Disk) (blk_off : Nat) (read : Int) :
    Nat → Int → List Nat → Nat → Option (Int × List Nat × Int)
  | 0, _, _, _ => none
  | fuel + 1, blk_num, buf, nbyte => do
    let nxt ← get_next_blk c disk blk_num
    if nxt > 0 then
      let readBuff ← block_read c disk nxt
      let offset ← text_from readBuff (blk_off + BLK_META_SIZE - 1)
      if offset.length ≥ nbyte then
        let buf1 ← strncat buf offset nbyte
        some (read, buf1, nxt)
      else
        let buf1 ← strncat buf offset offset.length
        fs_read_loop c disk blk_off read fuel nxt buf1 (nbyte - offset.length)
    else if nbyte > 0 then some (read - (nbyte : Int), buf, nxt)
    else some (-1, buf, nxt)

/-- Read from the given file: the result is the return value, the caller's
buffer and the new state. -/
def fs_read (c : Config) (fuel : Nat) (s : Volume) (fd : Int) (buf : List Nat) (nbyte : Nat) :
    Option (Int × List Nat × Volume) :=
  if fd < 0 ∨ fd ≥ c.MAX_DESC then none
  else
    match s.open_fildes.fds fd.toNat with
    | none => some (c.BAD_FILDES, buf, s)
    | some file => do
      let readBuff ← block_read c s.disk file.blk_num
      let offset ← text_from readBuff (file.blk_off + BLK_META_SIZE - 1)
      if offset.length ≥ nbyte then
        let buf1 ← strncpy buf offset nbyte
        some ((nbyte : Int), buf1, s)
      else
        let buf1 ← strncpy buf offset offset.length
        let (r, buf2, blk) ←
          fs_read_loop c s.disk file.blk_off (nbyte : Int) fuel file.blk_num buf1
            (nbyte - offset.length)
        some (r, buf2, s.put s.disk fd.toNat { file with blk_num := blk })

/-- The `while` loop of `fs_write`.  `buf` is the part of the caller's buffer
not yet consumed.  The result is the return value, the disk and the handle. -/
def fs_write_loop (c : Config) :
    Nat → Disk → fildes → List Nat → Nat → Nat → Option (Int × Disk × fildes)
  | 0, _, _, _, _, _ => none
  | fuel + 1, disk, file, buf, nbyte, nwrote =>
    if nwrote < nbyte then do
      let contents ← block_read c disk file.blk_num
      if c.BLOCK_SIZE ≤ file.blk_off + BLK_META_SIZE - 1 then none
      else
        let contents := contents.take (file.blk_off + BLK_META_SIZE - 1)
        let block_space := c.BLOCK_SIZE - BLK_META_SIZE - file.blk_off
        let new_contents := (cstr buf).take block_space
        let disk1 ← block_write c disk file.blk_num (contents ++ new_contents)
        let nwrite := if block_space > strlen buf then strlen buf else block_space
        let file1 : fildes := { file with blk_off := file.blk_off + nwrite }
        let nwrote1 := nwrote + nwrite
        let buf1 := buf.drop nwrite
        if file1.blk_off ≥ c.BLOCK_SIZE - BLK_META_SIZE then
          let nblock := get_free_bl c disk1
          if nblock < 0 then some ((nwrote1 : Int), disk1, file1)
          else
            let disk2 ← build_block c disk1 nblock
            let contents2 ← block_read c disk2 file1.blk_num
            let tail ← text_from contents2 BLK_META_SIZE
            let disk3 ← block_write c disk2 file1.blk_num (fmt_04ld nblock.toNat ++ tail)
            fs_write_loop c fuel disk3 { file1 with blk_num := nblock, blk_off := 0 }
              buf1 nbyte nwrote1
        else fs_write_loop c fuel disk1 file1 buf1 nbyte nwrote1
    else some ((nwrote : Int), disk, file)

/-- Write to the given file.  Every iteration but an empty one on a full block
consumes a byte, so `2 * nbyte + 2` iterations are enough.  (In the loop,
`contents[blk_off + BLK_META_SIZE - 1] = 0` must fall inside the buffer, which
is also what keeps `block_space` from being negative.) -/
def fs_write (c : Config) (s : Volume) (fd : Int) (buf : List Nat) (nbyte : Nat) :
    Option (Int × Volume) := do
  match ← get_file c s.open_fildes fd with
  | none => some (c.BAD_FILDES, s)
  | some file =>
    let nbyte1 := if nbyte > strlen buf then strlen buf else nbyte
    let (r, disk, file1) ← fs_write_loop c (2 * nbyte1 + 2) s.disk file buf nbyte1 0
    some (r, s.put disk fd.toNat file1)

/-- The `for` loop of `fs_get_filesize`: counts the blocks from `curr_blk`. -/
def fs_get_filesize_loop (c : Config) (disk : Disk) : Nat → Int → Nat → Option Nat
  | 0, _, _ => none
  | fuel + 1, curr_blk, blk_count =>
    if curr_blk > 0 then do
      let nxt ← get_next_blk c disk curr_blk
      fs_get_filesize_loop c disk fuel nxt (blk_count + 1)
    else some blk_count

/-- Get the number of blocks in the file, times `BLOCK_SIZE`. -/
def fs_get_filesize (c : Config) (fuel : Nat) (s : Volume) (fd : Int) : Option Int := do
  match ← get_file c s.open_fildes fd with
  | none => some c.BAD_FILDES
  | some file =>
    let head ← get_head c s.disk file.fname
    let blk_count ← fs_get_filesize_loop c s.disk fuel head 0
    some ((blk_count * c.BLOCK_SIZE : Nat) : Int)

/-- The `for` loop of `fs_lseek`.  `blk_num` is `file->blk_num`, which the
loop never changes; `n` iterations remain and `i` have been made.  The result
is either the error code returned from inside the loop, or the values of `i`
and `curr_blk` when the loop is left. -/
def fs_lseek_loop (c : Config) (disk : Disk) (blk_num : Int) :
    Nat → Nat → Int → Option (Int ⊕ (Nat × Int))
  | 0, i, curr_blk => some (Sum.inr (i, curr_blk))
  | n + 1, i, _ => do
    let curr_blk ← get_next_blk c disk blk_num
    if curr_blk = 0 then some (Sum.inr (i, curr_blk))
    else if curr_blk < 0 then some (Sum.inl curr_blk)
    else fs_lseek_loop c disk blk_num n (i + 1) curr_blk

/-- Seek to an offset from the start of the file (`offset` is not negative). -/
def fs_lseek (c : Config) (s : Volume) (fd : Int) (offset : Nat) : Option (Int × Volume) := do
  match ← get_file c s.open_fildes fd with
  | none => some (c.BAD_FILDES, s)
  | some file =>
    let head ← get_head c s.disk file.fname
    let file1 : fildes := { file with blk_num := head }
    let blk_stop := offset / c.BLOCK_SIZE
    let off_stop := offset % c.BLOCK_SIZE
    match ← fs_lseek_loop c s.disk file1.blk_num blk_stop 0 file1.blk_num with
    | Sum.inl err => some (err, s.put s.disk fd.toNat file1)
    | Sum.inr (i, curr_blk) =>
      if i ≠ blk_stop then some (c.LSEEK_OUT_OF_BOUNDS, s.put s.disk fd.toNat file1)
      else some (0, s.put s.disk fd.toNat { file1 with blk_num := curr_blk, blk_off := off_stop })

/-- The `while` loop of `fs_truncate`: every block from `curr_blk` on is
overwritten with the free marker. -/
def fs_truncate_loop (c : Config) : Nat → Disk → Int → Int → Option Disk
  | 0, _, _, _ => none
  | fuel + 1, disk, curr_blk, last_blk =>
    if curr_blk > 0 then do
      let nxt ← get_next_blk c disk curr_blk
      let _ ← block_read c disk last_blk
      let disk1 ← block_write c disk last_blk FREESTR
      fs_truncate_loop c fuel disk1 nxt nxt
    else some disk

/-- Truncates the given file (`length` is not negative). -/
def fs_truncate (c : Config) (fuel : Nat) (s : Volume) (fd : Int) (length : Nat) :
    Option (Int × Volume) := do
  match ← get_file c s.open_fildes fd with
  | none => some (c.BAD_FILDES, s)
  | some _ =>
    let flen ← fs_get_filesize c fuel s fd
    if (length : Int) > flen then some (0, s)
    else
      let (_, s1) ← fs_lseek c s fd length
      match ← get_file c s1.open_fildes fd with
      | none => none
      | some file1 =>
        let disk ← fs_truncate_loop c fuel s1.disk file1.blk_num file1.blk_num
        some (0, { s1 with disk := disk })

/-- Closes the given virtual file.  The guard lets `fildes == MAX_DESC` through;
the table has the slots `0 .. MAX_DESC - 1`, so for that value the source frees
and stores past the end of the table. -/
def fs_close (c : Config) (s : Volume) (fd : Int) : Option (Int × Volume) :=
  if fd < 0 ∨ fd > c.MAX_DESC then some (c.BAD_FILDES, s)
  else if fd < c.MAX_DESC then
    some (-1,
      { disk := s.disk,
        open_fildes :=
          { fds := fun i => if i = fd.toNat then none else s.open_fildes.fds i,
            num_open := s.open_fildes.num_open - 1 } })
  else none

/-- One call of `strtok(.., ";")`, where `t` is the text at the pointer `strtok`
starts from.  `none` is the result `NULL`.  Otherwise the result is the run of
delimiters skipped, the token, and the text behind the delimiter that ended
the token (`none` when the token ran up to the terminator of the buffer). -/
def strtok_next (t : Text) : Option (Text × Text × Option Text) :=
  let skipped := t.takeWhile (fun ch => ch = 59)
  let t1 := t.dropWhile (fun ch => ch = 59)
  if t1 = [] then none
  else
    let tok := t1.takeWhile (fun ch => ch ≠ 59)
    match t1.dropWhile (fun ch => ch ≠ 59) with
    | [] => some (skipped, tok, none)
    | _ :: rest => some (skipped, tok, some rest)

/-- The token loop of `fs_delete` and the two statements behind it.  `pre` is
the text of the buffer before the pointer `strtok` starts from (every token
passed has its `:` and its `;` written back), `t` the text from that pointer.
The result is the text `sprintf(buff, "%s%s", buff, kv + 1)` prints: the
buffer up to the matching token, where `kv[0] = 0` cuts it, followed by the
text behind the delimiter of that token.  There is no result when `strtok`
returns `NULL` (`kv[0]` is then a store through `NULL`), when a token has no
`:`, or when a token runs up to the terminator of the buffer (`kv[strlen(kv)]`
and `kv + 1` are then outside the text). -/
def fs_delete_scan (c : Config) (name : Text) : Nat → Text → Text → Option Text
  | 0, _, _ => none
  | fuel + 1, pre, t =>
    match strtok_next t with
    | none => none
    | some (skipped, kv, rest) =>
      let key := kv.takeWhile (fun ch => ch ≠ 58)
      if key.length < kv.length then
        if strncmp_eq key name c.BLOCK_SIZE then
          match rest with
          | some r => some (pre ++ skipped ++ r)
          | none => none
        else
          match rest with
          | some r => fs_delete_scan c name fuel (pre ++ skipped ++ kv ++ [59]) r
          | none => none
      else none

/-- Deletes the given file.  The results of `fs_open` and `fs_truncate` are not
looked at; `fs_close` is not called.  Every token has at least one byte, so
the length of the directory text plus one is enough fuel for the token loop;
`fuel` is for the loops of `fs_truncate`. -/
def fs_delete (c : Config) (fuel : Nat) (s : Volume) (name : List Nat) :
    Option (Int × Volume) :=
  if is_open c s.open_fildes name = 1 then some (c.ALREADY_OPEN, s)
  else do
    let curr_blk ← get_head c s.disk name
    if curr_blk < 0 then some (curr_blk, s)
    else
      let (fildes, s1) ← fs_open c s name
      let (_, s2) ← fs_truncate c fuel s1 fildes 0
      let buff ← block_read c s2.disk 0
      let buff2 ← fs_delete_scan c (cstr name) (buff.length + 1) [] buff
      let disk ← block_write c s2.disk 0 buff2
      some (0, { s2 with disk := disk })

/-! ## Well-formed volumes -/

/-- The chain of blocks from `h`: `Chain c disk h [b1, ..., bm]` says that `h`
is `b1`, that every `b` of the list is a data block of the store and its
next-pointer (what `get_next_blk` returns) is the following block of the list,
and that the next-pointer of `bm` is 0. -/
def Chain (c : Config) (disk : Disk) : Int → List Nat → Prop
  | h, [] => h = 0
  | h, b :: bs => h = (b : Int) ∧ 0 < b ∧ b < c.DISK_BLOCKS ∧
      Chain c disk (atoi_number ((disk b).take (BLK_META_SIZE - 1))) bs

/-- Deciding `Chain`. -/
def Chain.dec (c : Config) (disk : Disk) :
    (h : Int) → (bs : List Nat) → Decidable (Chain c disk h bs)
  | h, [] => inferInstanceAs (Decidable (h = 0))
  | h, b :: bs =>
    have := Chain.dec c disk (atoi_number ((disk b).take (BLK_META_SIZE - 1))) bs
    inferInstanceAs (Decidable (h = (b : Int) ∧ 0 < b ∧ b < c.DISK_BLOCKS ∧
      Chain c disk (atoi_number ((disk b).take (BLK_META_SIZE - 1))) bs))

instance (c : Config) (disk : Disk) (h : Int) (bs : List Nat) :
    Decidable (Chain c disk h bs) :=
  Chain.dec c disk h bs

/-- The free blocks of the store, in the order `get_free_bl` tries them. -/
def free_blocks (c : Config) (disk : Disk) : List Nat :=
  (List.range' 1 (c.DISK_BLOCKS - 1)).filter (fun i => isfree (disk i))

/-- A name without NUL, `:` or `;`. -/
def name_ok (name : Text) : Prop := ∀ ch ∈ name, ch ≠ 0 ∧ ch ≠ 58 ∧ ch ≠ 59

instance (name : Text) : Decidable (name_ok name) := by
  unfold name_ok; infer_instance

/-- The directory entry `name:head;` as `fs_create` prints it. -/
def dir_entry (e : Text × Nat) : Text := e.1 ++ [58] ++ fmt_ld e.2 ++ [59]

/-- The directory text of a list of records. -/
def dir_text : List (Text × Nat) → Text
  | [] => []
  | e :: es => dir_entry e ++ dir_text es

/-- The bytes of a string literal. -/
def bytes (s : String) : List Nat := s.toList.map Char.toNat

/-- The token of a directory record. -/
def dir_token (e : Text × Nat) : Text := e.1 ++ [58] ++ fmt_ld e.2

/-- What `get_head` finds in a directory of records: the head of the first
record whose name agrees with `fname` on `FILENAME_SIZE` bytes, as `atoi`
reads it. -/
def dir_lookup (c : Config) (fname : Text) (es : List (Text × Nat)) : Option Int :=
  match es.find? (fun e => strncmp_eq fname e.1 c.FILENAME_SIZE) with
  | some e => atoi (fmt_ld e.2)
  | none => some c.NO_FILE

/-! ## Scenarios on the volume of the spec -/

/-- The state an operation leaves (the fresh volume if it has no result). -/
def after (r : Option (Int × Volume)) : Volume :=
  match r with
  | some (_, s) => s
  | none => fresh

/-- The return value of an operation. -/
def code (r : Option (Int × Volume)) : Option Int := r.map (fun x => x.1)

/-- The return value of `fs_read` and the caller's buffer after it. -/
def outcome (r : Option (Int × List Nat × Volume)) : Option (Int × List Nat) :=
  r.map (fun x => (x.1, x.2.1))

/-- A caller's buffer of `n` NUL bytes. -/
def zeros (n : Nat) : List Nat := List.replicate n 0

/-- The name `a.txt`. -/
def a_txt : List Nat := bytes "a.txt"

/-- The 11 bytes `hello world`. -/
def hello : List Nat := bytes "hello world"

/-- 130 bytes: 123 times `x`, then `ABCDEFG`. -/
def data130 : List Nat := List.replicate 123 120 ++ bytes "ABCDEFG"

/-- 250 bytes `a`. -/
def data250 : List Nat := List.replicate 250 97

/-- The fresh volume after `fs_create("a.txt")`. -/
def vol_created : Volume := after (fs_create specConfig fresh a_txt)

/-- Then after `fs_open("a.txt")`, which returns descriptor 0. -/
def vol_opened : Volume := after (fs_open specConfig vol_created a_txt)

/-- Then after `fs_write(0, "hello world", 11)`. -/
def vol_hello : Volume := after (fs_write specConfig vol_opened 0 hello 11)

/-- The opened volume after `fs_write(0, data130, 130)`: a file of two blocks. -/
def vol_two : Volume := after (fs_write specConfig vol_opened 0 data130 130)

/-- The opened volume after `fs_write(0, data250, 250)`: a file of three blocks. -/
def vol_three : Volume := after (fs_write specConfig vol_opened 0 data250 250)

/-- The payload of the chain from block `blk`, as the read contract words it:
the payload of `blk` from offset `off` onward, followed by the full payloads of
the following blocks in chain order. -/
def payload_from (c : Config) (disk : Disk) : Nat → Int → Nat → Text
  | 0, _, _ => []
  | fuel + 1, blk, off =>
    if 0 < blk ∧ blk < c.DISK_BLOCKS then
      (disk blk.toNat).drop (BLK_META_SIZE - 1 + off) ++
        payload_from c disk fuel (atoi_number ((disk blk.toNat).take (BLK_META_SIZE - 1))) 0
    else []

/-- The bytes the read contract promises for `n` requested bytes. -/
def read_contract (c : Config) (disk : Disk) (fuel : Nat) (blk : Int) (off n : Nat) : Text :=
  (payload_from c disk fuel blk off).take n

/-- A directory of well-formed records. -/
def dir_ok (c : Config) (es : List (Text × Nat)) : Prop :=
  ∀ e ∈ es, name_ok e.1 ∧ e.1.length ≤ c.FILENAME_SIZE

instance (c : Config) (es : List (Text × Nat)) : Decidable (dir_ok c es) := by
  unfold dir_ok; infer_instance

/-- The name `b.txt`. -/
def b_txt : List Nat := bytes "b.txt"

/-- The fresh volume after `fs_open` of 32 names that no file has (`A`, `B`,
...): every slot of the table of `specConfig` is taken. -/
def vol_table_full : Volume :=
  (List.range 32).foldl (fun s i => after (fs_open specConfig s [65 + i])) fresh

/-- Then after `fs_create("a.txt")`. -/
def vol_table_full_created : Volume := after (fs_create specConfig vol_table_full a_txt)

/-- Then after `fs_delete("a.txt")`. -/
def vol_table_full_deleted : Volume :=
  after (fs_delete specConfig 8 vol_table_full_created a_txt)

/-- The volume with the only file `a.txt`, never opened, after `fs_delete("a.txt")`. -/
def vol_deleted : Volume := after (fs_delete specConfig 8 vol_created a_txt)

/-- 124 bytes: `ABCDEFG`, then 117 times `x`. -/
def data124 : List Nat := bytes "ABCDEFG" ++ List.replicate 117 120

/-- The opened volume after `fs_write(0, data124, 124)`. -/
def vol_linked : Volume := after (fs_write specConfig vol_opened 0 data124 124)

/-- A volume without a free block: the directory names `a` with head 1, every
data block holds an empty terminator. -/
def vol_no_free : Volume :=
  { disk := fun i => if i = 0 then bytes "a:1;" else bytes "0000",
    open_fildes := { fds := fun _ => none, num_open := 0 } }

/-- A volume whose directory holds the record `a:4294967288;`, a head of
`2^32 - 8`; every data block is free. -/
def vol_big_head : Volume :=
  { disk := fun i => if i = 0 then bytes "a:4294967288;" else FREESTR,
    open_fildes := { fds := fun _ => none, num_open := 0 } }

/-- The name of 15 bytes `aaaaaaaaaaaaaa` followed by the digit `i`. -/
def name15 (i : Nat) : List Nat := List.replicate 14 97 ++ [48 + i]

/-- The fresh volume after `fs_create` of `name15 0`, ..., `name15 4`, of a name
of 12 bytes `b` and of `name15 6`: seven files, the directory text has 123
bytes. -/
def vol_seven : Volume :=
  after (fs_create specConfig
    (after (fs_create specConfig
      ((List.range 5).foldl (fun s i => after (fs_create specConfig s (name15 i))) fresh)
      (List.replicate 12 98)))
    (name15 6))

/-- The fresh volume after `fs_create` of `a`, `b` and `c`. -/
def vol_abc : Volume :=
  after (fs_create specConfig (after (fs_create specConfig (after
    (fs_create specConfig fresh (bytes "a"))) (bytes "b"))) (bytes "c"))

/-! ## Lemmas -/

theorem block_read_nat (c : Config) (disk : Disk) (b : Nat) (hb : b < c.DISK_BLOCKS) :
    block_read c disk (b : Int) = some (disk b) := by
  simp [block_read, hb]

theorem block_write_nat (c : Config) (disk : Disk) (b : Nat) (t : Text)
    (hb : b < c.DISK_BLOCKS) (ht : t.length < c.BLOCK_SIZE) :
    block_write c disk (b : Int) t = some (disk_set disk b t) := by
  simp [block_write, hb, ht]

theorem atoi_digits_lt : ∀ (t : Text) (acc : Nat),
    atoi_digits acc t < (acc + 1) * 10 ^ t.length
  | [], acc => by simp [atoi_digits]
  | ch :: rest, acc => by
    unfold atoi_digits
    split_ifs with hd
    · have ih := atoi_digits_lt rest (acc * 10 + (ch - 48))
      have h9 : ch - 48 ≤ 9 := by
        simp only [isdigit, Bool.and_eq_true, decide_eq_true_eq] at hd
        omega
      have hle : (acc * 10 + (ch - 48) + 1) * 10 ^ rest.length ≤
          (acc + 1) * 10 * 10 ^ rest.length :=
        Nat.mul_le_mul_right _ (by omega)
      rw [List.length_cons, pow_succ]
      calc atoi_digits (acc * 10 + (ch - 48)) rest
          < (acc * 10 + (ch - 48) + 1) * 10 ^ rest.length := ih
        _ ≤ (acc + 1) * 10 * 10 ^ rest.length := hle
        _ = (acc + 1) * (10 ^ rest.length * 10) := by ring
    · have h1 : 1 ≤ 10 ^ (ch :: rest).length := Nat.one_le_pow _ _ (by decide)
      calc acc < acc + 1 := Nat.lt_succ_self _
        _ = (acc + 1) * 1 := (Nat.mul_one _).symm
        _ ≤ (acc + 1) * 10 ^ (ch :: rest).length := Nat.mul_le_mul_left _ h1

/-- A text of `n` bytes is read by `atoi` as a number of at most `n` digits. -/
theorem atoi_number_bound (t : Text) :
    -((10 ^ t.length : Nat) : Int) < atoi_number t ∧ atoi_number t < ((10 ^ t.length : Nat) : Int) := by
  have hdw : (t.dropWhile isspace).length ≤ t.length :=
    (List.dropWhile_sublist isspace).length_le
  have htl : (t.dropWhile isspace).tail.length ≤ t.length := by
    rw [List.length_tail]; omega
  have h1 : atoi_digits 0 (t.dropWhile isspace) < 10 ^ t.length := by
    have := atoi_digits_lt (t.dropWhile isspace) 0
    rw [Nat.zero_add, Nat.one_mul] at this
    exact lt_of_lt_of_le this (Nat.pow_le_pow_right (by decide) hdw)
  have h2 : atoi_digits 0 (t.dropWhile isspace).tail < 10 ^ t.length := by
    have := atoi_digits_lt (t.dropWhile isspace).tail 0
    rw [Nat.zero_add, Nat.one_mul] at this
    exact lt_of_lt_of_le this (Nat.pow_le_pow_right (by decide) htl)
  unfold atoi_number
  simp only
  split_ifs <;> constructor <;> omega

/-- The four bytes of a next-pointer are always a number `atoi` can return. -/
theorem atoi_short (t : Text) (h : t.length ≤ 4) : atoi t = some (atoi_number t) := by
  obtain ⟨h1, h2⟩ := atoi_number_bound t
  have hp : 10 ^ t.length ≤ 10 ^ 4 := Nat.pow_le_pow_right (by decide) h
  unfold atoi
  rw [if_pos (by constructor <;> omega)]

theorem get_next_blk_nat (c : Config) (disk : Disk) (b : Nat) (hb : b < c.DISK_BLOCKS) :
    get_next_blk c disk (b : Int) = some (atoi_number ((disk b).take (BLK_META_SIZE - 1))) := by
  have := atoi_short ((disk b).take (BLK_META_SIZE - 1))
    (by rw [List.length_take]; exact Nat.min_le_left _ _)
  simp [get_next_blk, block_read_nat c disk b hb, this]

theorem filesize_loop_chain (c : Config) (disk : Disk) :
    ∀ (bs : List Nat) (h : Int) (fuel n : Nat), Chain c disk h bs → bs.length < fuel →
      fs_get_filesize_loop c disk fuel h n = some (n + bs.length)
  | [], h, fuel, n, hc, hf => by
    cases fuel with
    | zero => simp at hf
    | succ fuel =>
      simp only [Chain] at hc
      simp [fs_get_filesize_loop, hc]
  | b :: bs, h, fuel, n, hc, hf => by
    cases fuel with
    | zero => simp at hf
    | succ fuel =>
      obtain ⟨rfl, hb0, hb, hrest⟩ := hc
      have ih := filesize_loop_chain c disk bs _ fuel (n + 1) hrest (by simpa using hf)
      simp only [fs_get_filesize_loop]
      rw [if_pos (by exact_mod_cast hb0), get_next_blk_nat c disk b hb]
      simp only [Option.bind_eq_bind, Option.some_bind, ih]
      simp; omega

theorem get_file_some (c : Config) (t : fildes_table) (fd : Int) (file : fildes)
    (h : get_file c t fd = some (some file)) :
    0 ≤ fd ∧ fd < c.MAX_DESC ∧ t.fds fd.toNat = some file := by
  unfold get_file at h
  split_ifs at h with h1 h2
  · simp at h
  · simp only [Option.some.injEq] at h
    exact ⟨by omega, h2, h⟩

theorem fs_get_filesize_chain (c : Config) (fuel : Nat) (s : Volume) (fd : Int) (file : fildes)
    (head : Int) (bs : List Nat)
    (hfile : get_file c s.open_fildes fd = some (some file))
    (hhead : get_head c s.disk file.fname = some head)
    (hchain : Chain c s.disk head bs)
    (hfuel : bs.length < fuel) :
    fs_get_filesize c fuel s fd = some ((bs.length * c.BLOCK_SIZE : Nat) : Int) := by
  simp [fs_get_filesize, hfile, hhead, filesize_loop_chain c s.disk bs head fuel 0 hchain hfuel]

/-- A chain is determined by its head. -/
theorem chain_unique (c : Config) (disk : Disk) :
    ∀ (bs bs2 : List Nat) (h : Int), Chain c disk h bs → Chain c disk h bs2 → bs = bs2
  | [], [], _, _, _ => rfl
  | [], b :: bs2, h, h1, h2 => by
    simp only [Chain] at h1 h2
    omega
  | b :: bs, [], h, h1, h2 => by
    simp only [Chain] at h1 h2
    omega
  | b :: bs, b2 :: bs2, h, h1, h2 => by
    obtain ⟨e1, _, _, r1⟩ := h1
    obtain ⟨e2, _, _, r2⟩ := h2
    have : b = b2 := by omega
    subst this
    rw [chain_unique c disk bs bs2 _ r1 r2]

theorem chain_suffix (c : Config) (disk : Disk) :
    ∀ (l1 : List Nat) (b : Nat) (l2 : List Nat) (h : Int), Chain c disk h (l1 ++ b :: l2) →
      Chain c disk (b : Int) (b :: l2)
  | [], b, l2, h, hc => by
    obtain ⟨_, h0, h1, h2⟩ := hc
    exact ⟨rfl, h0, h1, h2⟩
  | a :: l1, b, l2, h, hc => by
    obtain ⟨_, _, _, h2⟩ := hc
    exact chain_suffix c disk l1 b l2 _ h2

/-- The head of a chain does not occur again in it. -/
theorem chain_head_not_mem (c : Config) (disk : Disk) (h : Int) (b : Nat) (bs : List Nat)
    (hc : Chain c disk h (b :: bs)) : b ∉ bs := by
  intro hmem
  obtain ⟨l1, l2, rfl⟩ := List.append_of_mem hmem
  have h1 : Chain c disk (b : Int) (b :: (l1 ++ b :: l2)) := by
    obtain ⟨_, h0, h1, h2⟩ := hc
    exact ⟨rfl, h0, h1, h2⟩
  have h2 : Chain c disk (b : Int) (b :: l2) := by
    obtain ⟨_, _, _, h2⟩ := hc
    exact chain_suffix c disk l1 b l2 _ h2
  have := chain_unique c disk _ _ _ h1 h2
  have hl := congrArg List.length this
  simp at hl
  omega

/-- A chain only depends on the blocks it goes through. -/
theorem chain_congr (c : Config) (disk disk2 : Disk) :
    ∀ (bs : List Nat) (h : Int), (∀ b ∈ bs, disk2 b = disk b) → Chain c disk h bs →
      Chain c disk2 h bs
  | [], _, _, hc => hc
  | b :: bs, h, hagree, hc => by
    obtain ⟨e, h0, h1, h2⟩ := hc
    refine ⟨e, h0, h1, ?_⟩
    rw [hagree b (by simp)]
    exact chain_congr c disk disk2 bs _ (fun x hx => hagree x (by simp [hx])) h2

theorem chain_nodup (c : Config) (disk : Disk) :
    ∀ (bs : List Nat) (h : Int), Chain c disk h bs → bs.Nodup
  | [], _, _ => List.nodup_nil
  | b :: bs, h, hc => by
    refine List.nodup_cons.mpr ⟨chain_head_not_mem c disk h b bs hc, ?_⟩
    obtain ⟨_, _, _, h2⟩ := hc
    exact chain_nodup c disk bs _ h2

theorem truncate_loop_chain (c : Config) (hsz : FREESTR.length < c.BLOCK_SIZE) :
    ∀ (bs : List Nat) (disk : Disk) (h : Int) (fuel : Nat), Chain c disk h bs →
      bs.length < fuel →
      fs_truncate_loop c fuel disk h h =
        some (fun i => if i ∈ bs then FREESTR else disk i)
  | [], disk, h, fuel, hc, hf => by
    cases fuel with
    | zero => simp at hf
    | succ fuel =>
      simp only [Chain] at hc
      simp [fs_truncate_loop, hc]
  | b :: bs, disk, h, fuel, hc, hf => by
    cases fuel with
    | zero => simp at hf
    | succ fuel =>
      have hnm := chain_head_not_mem c disk h b bs hc
      obtain ⟨rfl, hb0, hb, hrest⟩ := hc
      simp only [fs_truncate_loop]
      rw [if_pos (by exact_mod_cast hb0), get_next_blk_nat c disk b hb]
      simp only [Option.bind_eq_bind, Option.some_bind, block_read_nat c disk b hb,
        block_write_nat c disk b FREESTR hb hsz]
      have hrest2 : Chain c (disk_set disk b FREESTR)
          (atoi_number ((disk b).take (BLK_META_SIZE - 1))) bs := by
        apply chain_congr c disk _ bs _ _ hrest
        intro x hx
        have : x ≠ b := fun e => hnm (e ▸ hx)
        simp [disk_set, this]
      rw [truncate_loop_chain c hsz bs _ _ fuel hrest2 (by simpa using hf)]
      congr 1
      funext i
      by_cases hi : i = b
      · subst hi; simp [disk_set]
      · simp [disk_set, hi]

theorem get_file_put (c : Config) (s : Volume) (disk : Disk) (fd : Int) (file f2 : fildes)
    (hfile : get_file c s.open_fildes fd = some (some file)) :
    get_file c (s.put disk fd.toNat f2).open_fildes fd = some (some f2) := by
  obtain ⟨h0, h1, _⟩ := get_file_some c _ fd file hfile
  unfold get_file
  rw [if_neg (by omega), if_pos h1]
  simp [Volume.put, fildes_table.set]

theorem fs_lseek_zero (c : Config) (s : Volume) (fd : Int) (file : fildes) (head : Int)
    (hfile : get_file c s.open_fildes fd = some (some file))
    (hhead : get_head c s.disk file.fname = some head) :
    fs_lseek c s fd 0 =
      some (0, s.put s.disk fd.toNat { file with blk_num := head, blk_off := 0 }) := by
  simp [fs_lseek, hfile, hhead, fs_lseek_loop]

theorem fs_truncate_zero (c : Config) (hc : c.ok) (fuel : Nat) (s : Volume) (fd : Int)
    (file : fildes) (head : Int) (bs : List Nat)
    (hfile : get_file c s.open_fildes fd = some (some file))
    (hhead : get_head c s.disk file.fname = some head)
    (hchain : Chain c s.disk head bs)
    (hfuel : bs.length < fuel) :
    fs_truncate c fuel s fd 0 =
      some (0, { disk := fun i => if i ∈ bs then FREESTR else s.disk i,
                 open_fildes := s.open_fildes.set fd.toNat
                   (some { file with blk_num := head, blk_off := 0 }) }) := by
  have hsz : FREESTR.length < c.BLOCK_SIZE := by
    have := hc.1
    simp [FREESTR, BLK_META_SIZE] at *
    omega
  have hput := get_file_put c s s.disk fd file { file with blk_num := head, blk_off := 0 } hfile
  have hloop := truncate_loop_chain c hsz bs s.disk head fuel hchain hfuel
  simp only [fs_truncate, hfile, Option.bind_eq_bind, Option.some_bind,
    fs_get_filesize_chain c fuel s fd file head bs hfile hhead hchain hfuel,
    fs_lseek_zero c s fd file head hfile hhead, hput]
  rw [if_neg (by simp only [Nat.cast_zero, gt_iff_lt, not_lt]; exact Int.natCast_nonneg _)]
  simp only [Volume.put] at hloop ⊢
  simp [hloop]

/-- Reading at offset 0 of a block that holds the free marker gives no byte. -/
theorem fs_read_free_block (c : Config) (fuel : Nat) (s : Volume) (fd : Int) (file : fildes)
    (b : Nat) (buf : List Nat) (n : Nat)
    (hfd : 0 ≤ fd ∧ fd < c.MAX_DESC) (hfile : s.open_fildes.fds fd.toNat = some file)
    (hblk : file.blk_num = (b : Int)) (hoff : file.blk_off = 0)
    (hb : b < c.DISK_BLOCKS) (hfree : s.disk b = FREESTR) (hfuel : 0 < fuel) :
    ∃ s2, fs_read c fuel s fd buf n = some (0, buf, s2) := by
  unfold fs_read
  rw [if_neg (by omega)]
  simp only [hfile, hblk, hoff, block_read_nat c s.disk b hb, hfree, Option.bind_eq_bind,
    Option.some_bind]
  have htf : text_from FREESTR (0 + BLK_META_SIZE - 1) = some [] := by decide
  rw [htf]
  simp only [Option.some_bind, List.length_nil]
  by_cases hn : n = 0
  · subst hn
    exact ⟨s, by simp [strncpy]⟩
  · rw [if_neg (by omega)]
    obtain ⟨fuel, rfl⟩ : ∃ k, fuel = k + 1 := ⟨fuel - 1, by omega⟩
    have hnext : get_next_blk c s.disk (b : Int) = some (-100) := by
      rw [get_next_blk_nat c s.disk b hb, hfree]; decide
    refine ⟨s.put s.disk fd.toNat { file with blk_num := -100 }, ?_⟩
    simp [strncpy, fs_read_loop, hnext, Nat.pos_of_ne_zero hn, hoff]

/-! ### Numbers as text -/

theorem dec_digits_isdigit : ∀ (fuel n : Nat), ∀ ch ∈ dec_digits fuel n, isdigit ch = true
  | 0, n, ch, h => by
    simp only [dec_digits, List.mem_singleton] at h
    subst h
    have : n % 10 < 10 := Nat.mod_lt _ (by decide)
    simp [isdigit]; omega
  | fuel + 1, n, ch, h => by
    unfold dec_digits at h
    split_ifs at h with hn
    · simp only [List.mem_singleton] at h
      subst h
      simp [isdigit]; omega
    · rcases List.mem_append.mp h with h | h
      · exact dec_digits_isdigit fuel _ ch h
      · simp only [List.mem_singleton] at h
        subst h
        have : n % 10 < 10 := Nat.mod_lt _ (by decide)
        simp [isdigit]; omega

theorem dec_digits_ne_nil : ∀ (fuel n : Nat), dec_digits fuel n ≠ []
  | 0, n => by simp [dec_digits]
  | fuel + 1, n => by
    unfold dec_digits
    split_ifs <;> simp

theorem atoi_digits_dec : ∀ (fuel n acc : Nat) (rest : Text), n < 10 ^ (fuel + 1) →
    atoi_digits acc (dec_digits fuel n ++ rest) =
      atoi_digits (acc * 10 ^ (dec_digits fuel n).length + n) rest
  | 0, n, acc, rest, h => by
    have hn : n < 10 := by simpa using h
    have hd : isdigit (48 + n) = true := by simp [isdigit]; omega
    simp [dec_digits, atoi_digits, hd, Nat.mod_eq_of_lt hn]
  | fuel + 1, n, acc, rest, h => by
    unfold dec_digits
    split_ifs with hn
    · have hd : isdigit (48 + n) = true := by simp [isdigit]; omega
      simp [atoi_digits, hd]
    · have h2 : n / 10 < 10 ^ (fuel + 1) := by
        rw [Nat.div_lt_iff_lt_mul (by decide)]
        calc n < 10 ^ (fuel + 1 + 1) := h
          _ = 10 ^ (fuel + 1) * 10 := by ring
      have hd : isdigit (48 + n % 10) = true := by
        have : n % 10 < 10 := Nat.mod_lt _ (by decide)
        simp [isdigit]; omega
      rw [List.append_assoc, atoi_digits_dec fuel (n / 10) acc _ h2]
      simp only [List.singleton_append, atoi_digits, hd, if_true, List.length_append,
        List.length_singleton]
      congr 1
      have := Nat.div_add_mod n 10
      rw [pow_succ]
      simp only [Nat.add_sub_cancel_left]
      nlinarith [Nat.div_add_mod n 10]

theorem atoi_of_digits (t : Text) (h : ∀ ch ∈ t, isdigit ch = true) :
    atoi_number t = ((atoi_digits 0 t : Nat) : Int) := by
  cases t with
  | nil => simp [atoi_number]
  | cons a t =>
    have ha := h a (by simp)
    have hs : isspace a = false := by
      simp [isdigit] at ha
      simp [isspace]; omega
    have h45 : a ≠ 45 := by simp [isdigit] at ha; omega
    have h43 : a ≠ 43 := by simp [isdigit] at ha; omega
    simp [atoi_number, List.dropWhile, hs, h45, h43]

theorem lt_ten_pow_succ (n : Nat) : n < 10 ^ (n + 1) :=
  lt_trans (Nat.lt_pow_self (by decide : 1 < 10) n) (Nat.pow_lt_pow_right (by decide) (by omega))

theorem atoi_fmt_ld (n : Nat) : atoi_number (fmt_ld n) = (n : Int) := by
  unfold fmt_ld
  rw [atoi_of_digits _ (dec_digits_isdigit n n)]
  have := atoi_digits_dec n n 0 [] (lt_ten_pow_succ n)
  simp only [List.append_nil, Nat.zero_mul, Nat.zero_add] at this
  simp [this, atoi_digits]

/-- A head that `fs_create` printed is read back by `atoi` when it is
representable in `int`. -/
theorem atoi_fmt_ld_some (n : Nat) (h : n ≤ 2147483647) : atoi (fmt_ld n) = some (n : Int) := by
  unfold atoi
  rw [atoi_fmt_ld, if_pos (by constructor <;> omega)]

theorem atoi_fmt_ld_eq (n : Nat) (v : Int) (h : atoi (fmt_ld n) = some v) : v = (n : Int) := by
  unfold atoi at h
  rw [atoi_fmt_ld] at h
  split_ifs at h
  exact (Option.some.inj h).symm

theorem dec_digits_length_le : ∀ (fuel n k : Nat), n < 10 ^ (k + 1) →
    (dec_digits fuel n).length ≤ k + 1
  | 0, n, k, _ => by simp [dec_digits]
  | fuel + 1, n, k, h => by
    unfold dec_digits
    split_ifs with hn
    · simp
    · cases k with
      | zero => simp at h; omega
      | succ k =>
        have h2 : n / 10 < 10 ^ (k + 1) := by
          rw [Nat.div_lt_iff_lt_mul (by decide)]
          calc n < 10 ^ (k + 1 + 1) := h
            _ = 10 ^ (k + 1) * 10 := by ring
        have := dec_digits_length_le fuel (n / 10) k h2
        simp only [List.length_append, List.length_singleton]
        omega

theorem fmt_04ld_length (n : Nat) (h : n < 10000) : (fmt_04ld n).length = 4 := by
  have h1 : (fmt_ld n).length ≤ 4 := dec_digits_length_le n n 3 (by simpa using h)
  simp only [fmt_04ld, List.length_append, List.length_replicate]
  omega

theorem atoi_digits_zeros : ∀ (m : Nat) (r : Text),
    atoi_digits 0 (List.replicate m 48 ++ r) = atoi_digits 0 r
  | 0, r => by simp
  | m + 1, r => by
    have hd : isdigit 48 = true := by decide
    simp only [List.replicate_succ, List.cons_append, atoi_digits, hd, if_true]
    exact atoi_digits_zeros m r

theorem atoi_fmt_04ld (n : Nat) : atoi_number (fmt_04ld n) = (n : Int) := by
  have hall : ∀ ch ∈ fmt_04ld n, isdigit ch = true := by
    intro ch hch
    simp only [fmt_04ld, List.mem_append, List.mem_replicate] at hch
    rcases hch with ⟨_, rfl⟩ | hch
    · decide
    · exact dec_digits_isdigit n n ch hch
  rw [atoi_of_digits _ hall]
  unfold fmt_04ld
  rw [atoi_digits_zeros]
  have := atoi_digits_dec n n 0 [] (lt_ten_pow_succ n)
  simp only [List.append_nil, Nat.zero_mul, Nat.zero_add] at this
  simp [fmt_ld, this, atoi_digits]

theorem fmt_04ld_ne_free (n : Nat) (t : Text) : fmt_04ld n ++ t ≠ FREESTR := by
  intro h
  have hne : fmt_04ld n ≠ [] := by
    simp [fmt_04ld, fmt_ld, dec_digits_ne_nil]
  obtain ⟨a, r, har⟩ := List.exists_cons_of_ne_nil hne
  have hd : isdigit a = true := by
    have hall : ∀ ch ∈ fmt_04ld n, isdigit ch = true := by
      intro ch hch
      simp only [fmt_04ld, List.mem_append, List.mem_replicate] at hch
      rcases hch with ⟨_, rfl⟩ | hch
      · decide
      · exact dec_digits_isdigit n n ch hch
    exact hall a (by simp [har])
  rw [har] at h
  simp only [FREESTR, List.cons_append, List.cons.injEq] at h
  rw [h.1] at hd
  exact absurd hd (by decide)

/-- The next-pointer of a block whose text starts with `%04ld` of `n`. -/
theorem atoi_take_fmt_04ld (n : Nat) (h : n < 10000) (t : Text) :
    atoi_number ((fmt_04ld n ++ t).take (BLK_META_SIZE - 1)) = (n : Int) := by
  have hl := fmt_04ld_length n h
  have : (fmt_04ld n ++ t).take (BLK_META_SIZE - 1) = fmt_04ld n := by
    rw [List.take_append_of_le_length (by simp [hl, BLK_META_SIZE])]
    exact List.take_of_length_le (by simp [hl, BLK_META_SIZE])
  rw [this, atoi_fmt_04ld]

/-! ### Tokens and the directory -/

theorem strtok_run_append : ∀ (t cur rest : Text), (∀ ch ∈ t, ch ≠ 59) →
    strtok_run cur (t ++ rest) = strtok_run (cur ++ t) rest
  | [], cur, rest, _ => by simp
  | a :: t, cur, rest, h => by
    have ha : a ≠ 59 := h a (by simp)
    have h1 : strtok_run cur (a :: (t ++ rest)) = strtok_run (cur ++ [a]) (t ++ rest) := by
      simp [strtok_run, ha]
    rw [List.cons_append, h1,
      strtok_run_append t (cur ++ [a]) rest (fun ch hch => h ch (by simp [hch]))]
    simp

theorem fmt_ld_no_semi (n : Nat) : ∀ ch ∈ fmt_ld n, ch ≠ 59 ∧ ch ≠ 58 := by
  intro ch hch
  have := dec_digits_isdigit n n ch hch
  simp [isdigit] at this
  omega

theorem strtok_all_dir_text : ∀ (es : List (Text × Nat)) (rest : Text),
    (∀ e ∈ es, name_ok e.1) →
    strtok_all (dir_text es ++ rest) = es.map dir_token ++ strtok_all rest
  | [], rest, _ => by simp [dir_text]
  | e :: es, rest, h => by
    have he : ∀ ch ∈ dir_token e, ch ≠ 59 := by
      intro ch hch
      simp only [dir_token, List.mem_append, List.mem_singleton] at hch
      rcases hch with (hch | hch) | hch
      · exact (h e (by simp) ch hch).2.2
      · omega
      · exact (fmt_ld_no_semi e.2 ch hch).1
    have hne : dir_token e ≠ [] := by simp [dir_token]
    have hsplit : dir_text (e :: es) ++ rest = dir_token e ++ (59 :: (dir_text es ++ rest)) := by
      simp [dir_text, dir_entry, dir_token]
    unfold strtok_all at *
    rw [hsplit, strtok_run_append _ _ _ he]
    simp only [List.nil_append, strtok_run, if_true, if_neg hne]
    have ih := strtok_all_dir_text es rest (fun x hx => h x (by simp [hx]))
    unfold strtok_all at ih
    rw [ih]
    simp

theorem takeWhile_name (name rest : Text) (h : name_ok name) :
    (name ++ 58 :: rest).takeWhile (fun ch => ch ≠ 58) = name := by
  induction name with
  | nil => simp [List.takeWhile]
  | cons a t ih =>
    have ha : a ≠ 58 := (h a (by simp)).2.1
    have ih2 := ih (fun ch hch => h ch (by simp [hch]))
    rw [List.cons_append, List.takeWhile_cons, if_pos (by simpa using ha), ih2]

theorem cstr_name (name : Text) (h : ∀ ch ∈ name, ch ≠ 0) : cstr name = name := by
  unfold cstr
  rw [List.takeWhile_eq_self_iff]
  intro ch hch
  simpa using h ch hch

theorem strlen_name (name : Text) (h : ∀ ch ∈ name, ch ≠ 0) : strlen name = name.length := by
  simp [strlen, cstr_name name h]

theorem get_head_scan_token (c : Config) (fname : Text) (e : Text × Nat) (rest : List Text)
    (h : name_ok e.1) :
    get_head_scan c fname (dir_token e :: rest) =
      if strncmp_eq fname e.1 c.FILENAME_SIZE then atoi (fmt_ld e.2)
      else get_head_scan c fname rest := by
  have hk : (dir_token e).takeWhile (fun ch => ch ≠ 58) = e.1 := by
    simp only [dir_token, List.append_assoc, List.singleton_append]
    exact takeWhile_name e.1 _ h
  have hd : (dir_token e).drop (e.1.length + 1) = fmt_ld e.2 := by
    simp [dir_token]
  simp only [get_head_scan, hk, hd]
  rw [if_pos (by simp [dir_token])]

theorem get_head_scan_dir (c : Config) (fname : Text) :
    ∀ (es : List (Text × Nat)), (∀ e ∈ es, name_ok e.1) →
      get_head_scan c fname (es.map dir_token) = dir_lookup c fname es
  | [], _ => by simp [get_head_scan, dir_lookup]
  | e :: es, h => by
    rw [List.map_cons, get_head_scan_token c fname e _ (h e (by simp))]
    by_cases hm : strncmp_eq fname e.1 c.FILENAME_SIZE = true
    · simp [hm, dir_lookup, List.find?]
    · have ih := get_head_scan_dir c fname es (fun x hx => h x (by simp [hx]))
      simp only [Bool.not_eq_true] at hm
      simp [hm, ih, dir_lookup, List.find?]

theorem get_head_dir (c : Config) (disk : Disk) (fname : List Nat) (es : List (Text × Nat))
    (hD : 0 < c.DISK_BLOCKS) (hdir : disk 0 = dir_text es) (hok : ∀ e ∈ es, name_ok e.1) :
    get_head c disk fname = dir_lookup c (cstr fname) es := by
  have hr : block_read c disk 0 = some (dir_text es) := by
    have := block_read_nat c disk 0 hD
    simpa [hdir] using this
  have ht := strtok_all_dir_text es [] hok
  have he : strtok_all [] = [] := by simp [strtok_all, strtok_run]
  rw [List.append_nil, he, List.append_nil] at ht
  simp [get_head, hr, ht, get_head_scan_dir c _ es hok]

theorem dir_text_append : ∀ (es : List (Text × Nat)) (e : Text × Nat),
    dir_text (es ++ [e]) = dir_text es ++ dir_entry e
  | [], e => by simp [dir_text]
  | a :: es, e => by simp [dir_text, dir_text_append es e]

/-- Looking up a name right after its record was appended to a directory that
did not have it. -/
theorem dir_lookup_append (c : Config) (hno : c.NO_FILE < 0) (fname name : Text) (b : Nat)
    (es : List (Text × Nat)) (hmatch : strncmp_eq fname name c.FILENAME_SIZE = true)
    (hb : b < 10000) (hnew : dir_lookup c fname es = some c.NO_FILE) :
    dir_lookup c fname (es ++ [(name, b)]) = some (b : Int) := by
  unfold dir_lookup at hnew ⊢
  rw [List.find?_append]
  cases hf : es.find? (fun e => strncmp_eq fname e.1 c.FILENAME_SIZE) with
  | some e =>
    rw [hf] at hnew
    simp only at hnew
    have := atoi_fmt_ld_eq e.2 _ hnew
    omega
  | none => simp [List.find?, hmatch, atoi_fmt_ld_some b (by omega)]

/-! ### Free blocks -/

theorem get_free_bl_loop_eq (c : Config) (disk : Disk) : ∀ (n i : Nat),
    get_free_bl_loop c disk n i =
      match (List.range' i n).filter (fun j => isfree (disk j)) with
      | [] => c.NO_BLOCKS
      | j :: _ => (j : Int)
  | 0, i => by simp [get_free_bl_loop]
  | n + 1, i => by
    simp only [get_free_bl_loop, List.range'_succ, List.filter_cons]
    by_cases hf : isfree (disk i) = true
    · simp [hf]
    · simp only [hf, if_false, Bool.false_eq_true]
      exact get_free_bl_loop_eq c disk n (i + 1)

theorem get_free_bl_eq (c : Config) (disk : Disk) :
    get_free_bl c disk =
      match free_blocks c disk with
      | [] => c.NO_BLOCKS
      | j :: _ => (j : Int) := by
  simp only [get_free_bl, free_blocks]
  exact get_free_bl_loop_eq c disk _ 1

theorem mem_free_blocks (c : Config) (disk : Disk) (j : Nat) :
    j ∈ free_blocks c disk ↔ (1 ≤ j ∧ j < c.DISK_BLOCKS) ∧ disk j = FREESTR := by
  simp only [free_blocks, List.mem_filter, List.mem_range', isfree, decide_eq_true_eq]
  constructor
  · rintro ⟨⟨i, hi, rfl⟩, hfr⟩
    refine ⟨by omega, hfr⟩
  · rintro ⟨⟨h1, h2⟩, hfr⟩
    exact ⟨⟨j - 1, by omega, by omega⟩, hfr⟩

theorem free_blocks_nodup (c : Config) (disk : Disk) : (free_blocks c disk).Nodup :=
  List.Nodup.filter _ (List.nodup_range' 1 _)

/-- Overwriting block `x` with a text other than the free marker removes `x`
from the free blocks and keeps the others. -/
theorem free_blocks_disk_set (c : Config) (disk : Disk) (x : Nat) (v : Text)
    (hv : v ≠ FREESTR) :
    free_blocks c (disk_set disk x v) = (free_blocks c disk).filter (fun j => j ≠ x) := by
  simp only [free_blocks, List.filter_filter]
  apply List.filter_congr
  intro j _
  by_cases hj : j = x
  · subst hj
    simp [disk_set, isfree, hv]
  · simp [disk_set, hj]

theorem filter_ne_of_not_mem (l : List Nat) (x : Nat) (h : x ∉ l) :
    l.filter (fun j => j ≠ x) = l := by
  rw [List.filter_eq_self]
  intro a ha
  have : a ≠ x := fun e => h (e ▸ ha)
  simpa using this

theorem filter_ne_head (l : List Nat) (x : Nat) (h : (x :: l).Nodup) :
    (x :: l).filter (fun j => j ≠ x) = l := by
  have hx : x ∉ l := (List.nodup_cons.mp h).1
  have := filter_ne_of_not_mem l x hx
  simp only [List.filter_cons, ne_eq, not_true_eq_false, decide_False, Bool.false_eq_true,
    if_false]
  exact this

theorem build_block_nat (c : Config) (disk : Disk) (b : Nat) (hb : b < c.DISK_BLOCKS) :
    build_block c disk (b : Int) = some (disk_set disk b [48, 48, 48, 48]) := by
  simp [build_block, hb]

/-- What a successful `fs_create` does to a volume whose directory is the text
of the records `es`. -/
theorem fs_create_success (c : Config) (hc : c.ok) (s s1 : Volume) (name : Text)
    (es : List (Text × Nat)) (hname : name_ok name)
    (hdir : s.disk 0 = dir_text es) (hok : ∀ e ∈ es, name_ok e.1)
    (h : fs_create c s name = some (0, s1)) :
    ∃ b F, free_blocks c s.disk = b :: F ∧ name.length ≤ c.FILENAME_SIZE ∧
      dir_lookup c name es = some c.NO_FILE ∧
      s1 = { disk := disk_set (disk_set s.disk 0 (dir_text (es ++ [(name, b)]))) b
                [48, 48, 48, 48],
             open_fildes := s.open_fildes } := by
  obtain ⟨_, _, _, _, _, hNTL, hFE, hSMF, hNF, hNB, _⟩ := hc
  have hcs : cstr name = name := cstr_name name (fun ch hch => (hname ch hch).1)
  unfold fs_create at h
  rw [strlen_name name (fun ch hch => (hname ch hch).1)] at h
  by_cases h1 : name.length > c.FILENAME_SIZE
  · rw [if_pos h1] at h
    simp only [Option.some.injEq, Prod.mk.injEq] at h
    omega
  rw [if_neg h1, get_free_bl_eq] at h
  cases hF : free_blocks c s.disk with
  | nil =>
    rw [hF] at h
    simp only [hNB, if_true, Option.some.injEq, Prod.mk.injEq] at h
    omega
  | cons b F =>
    rw [hF] at h
    have hbmem : b ∈ free_blocks c s.disk := by simp [hF]
    obtain ⟨⟨hb1, hbD⟩, _⟩ := (mem_free_blocks c s.disk b).mp hbmem
    have hD : 0 < c.DISK_BLOCKS := by omega
    have hgh := get_head_dir c s.disk name es hD hdir hok
    rw [hcs] at hgh
    have hr : block_read c s.disk 0 = some (dir_text es) := by
      have := block_read_nat c s.disk 0 hD
      simpa [hdir] using this
    simp only [show ¬ ((b : Int) < 0) by omega, if_false, hgh, Option.bind_eq_bind,
      Int.toNat_ofNat, hcs] at h
    cases hlk : dir_lookup c name es with
    | none => simp [hlk] at h
    | some head =>
    simp only [hlk, Option.some_bind, hr] at h
    by_cases h2 : head = c.NO_FILE
    · subst h2
      simp only [ne_eq, not_true_eq_false, if_false] at h
      by_cases h3 : c.BLOCK_SIZE ≤ (dir_text es).length
      · simp [h3] at h
      rw [if_neg h3] at h
      by_cases h4 : c.BLOCK_SIZE - (dir_text es).length ≤ MAX_KV_SIZE
      · rw [if_pos h4] at h
        simp only [Option.some.injEq, Prod.mk.injEq] at h
        omega
      rw [if_neg h4] at h
      have htxt : dir_text es ++ name ++ [58] ++ fmt_ld b ++ [59] =
          dir_text (es ++ [(name, b)]) := by
        simp [dir_text_append, dir_entry]
      rw [htxt] at h
      by_cases h5 : (dir_text (es ++ [(name, b)])).length < c.BLOCK_SIZE
      · have hw := block_write_nat c s.disk 0 _ hD h5
        simp only [Nat.cast_zero] at hw
        rw [hw, Option.some_bind, build_block_nat c _ b hbD] at h
        simp only [Option.some_bind, Option.some.injEq, Prod.mk.injEq, true_and] at h
        exact ⟨b, F, rfl, by omega, rfl, h.symm⟩
      · have hw : block_write c s.disk 0 (dir_text (es ++ [(name, b)])) = none := by
          simp [block_write, h5]
        simp [hw] at h
    · simp only [ne_eq, h2, not_false_eq_true, if_true, Option.some.injEq, Prod.mk.injEq] at h
      omega

/-- What a successful `fs_open` leaves: the disk as it was and a handle on the
head block at offset 0. -/
theorem fs_open_success (c : Config) (hc : c.ok) (s s2 : Volume) (name : List Nat) (fd : Int)
    (h : fs_open c s name = some (fd, s2)) (hfd : 0 ≤ fd) :
    ∃ head, get_head c s.disk name = some head ∧ s2.disk = s.disk ∧
      get_file c s2.open_fildes fd =
        some (some { fname := (cstr name).take c.FILENAME_SIZE, blk_num := head,
                     blk_off := 0 }) := by
  obtain ⟨_, _, hAO, hVD, _⟩ := hc
  unfold fs_open at h
  by_cases h1 : is_open c s.open_fildes name = 1
  · rw [if_pos h1] at h
    simp only [Option.some.injEq, Prod.mk.injEq] at h
    omega
  rw [if_neg h1] at h
  by_cases h2 : s.open_fildes.num_open ≥ c.MAX_DESC
  · rw [if_pos h2] at h
    simp only [Option.some.injEq, Prod.mk.injEq] at h
    omega
  rw [if_neg h2] at h
  cases hf : (List.range c.MAX_DESC).find? (fun fd => (s.open_fildes.fds fd).isNone) with
  | none => simp [hf] at h
  | some slot =>
    have hslot : slot < c.MAX_DESC := by
      have := List.mem_of_find?_eq_some hf
      simpa using this
    simp only [hf, Option.bind_eq_bind] at h
    cases hg : get_head c s.disk name with
    | none => simp [hg] at h
    | some head =>
      simp only [hg, Option.some_bind, Option.some.injEq, Prod.mk.injEq] at h
      obtain ⟨rfl, rfl⟩ := h
      refine ⟨head, rfl, rfl, ?_⟩
      unfold get_file
      rw [if_neg (by omega), if_pos (by exact_mod_cast hslot)]
      simp

/-! ### The loop of `fs_write` -/

theorem write_loop_done (c : Config) (fuel : Nat) (disk : Disk) (file : fildes)
    (buf : List Nat) (nbyte nwrote : Nat) (h : ¬ nwrote < nbyte) :
    fs_write_loop c (fuel + 1) disk file buf nbyte nwrote = some ((nwrote : Int), disk, file) := by
  simp [fs_write_loop, h]

/-- One iteration that does not fill the block. -/
theorem write_loop_fits (c : Config) (fuel : Nat) (disk : Disk) (file : fildes) (b : Nat)
    (r : List Nat) (nbyte nwrote : Nat)
    (hblk : file.blk_num = (b : Int)) (hb : b < c.DISK_BLOCKS)
    (hr : ∀ ch ∈ r, ch ≠ 0) (hlt : nwrote < nbyte)
    (hfit : file.blk_off + r.length < c.BLOCK_SIZE - BLK_META_SIZE) :
    fs_write_loop c (fuel + 1) disk file r nbyte nwrote =
      fs_write_loop c fuel
        (disk_set disk b ((disk b).take (file.blk_off + BLK_META_SIZE - 1) ++ r))
        { file with blk_off := file.blk_off + r.length } [] nbyte (nwrote + r.length) := by
  have hcs := cstr_name r hr
  have hsl := strlen_name r hr
  have hlen : ((disk b).take (file.blk_off + BLK_META_SIZE - 1) ++ r).length < c.BLOCK_SIZE := by
    simp only [List.length_append, List.length_take, BLK_META_SIZE] at *
    omega
  have htake : List.take (c.BLOCK_SIZE - BLK_META_SIZE - file.blk_off) r = r :=
    List.take_of_length_le (by omega)
  rw [fs_write_loop, if_pos hlt, hblk, block_read_nat c disk b hb]
  simp only [Option.bind_eq_bind, Option.some_bind]
  rw [if_neg (by simp only [BLK_META_SIZE] at *; omega)]
  have hnw : (if c.BLOCK_SIZE - BLK_META_SIZE - file.blk_off > r.length then r.length
      else c.BLOCK_SIZE - BLK_META_SIZE - file.blk_off) = r.length := if_pos (by omega)
  simp only [hcs, hsl, htake, block_write_nat c disk b _ hb hlen, Option.some_bind, hnw]
  rw [if_neg (by omega)]
  simp

/-- One iteration that fills the block, takes the first free block and links
it. -/
theorem write_loop_cross (c : Config) (fuel : Nat) (disk : Disk) (file : fildes) (b n : Nat)
    (F : List Nat) (r : List Nat) (nbyte nwrote : Nat)
    (hblk : file.blk_num = (b : Int)) (hb : b < c.DISK_BLOCKS)
    (hr : ∀ ch ∈ r, ch ≠ 0) (hlt : nwrote < nbyte)
    (hoff : file.blk_off < c.BLOCK_SIZE - BLK_META_SIZE)
    (hcross : c.BLOCK_SIZE - BLK_META_SIZE ≤ file.blk_off + r.length)
    (h4 : 4 ≤ (disk b).length) (hn10 : n < 10000)
    (hfree : free_blocks c disk = n :: F) (hnotfree : disk b ≠ FREESTR) :
    fs_write_loop c (fuel + 1) disk file r nbyte nwrote =
      fs_write_loop c fuel
        (disk_set (disk_set (disk_set disk b
            ((disk b).take (file.blk_off + BLK_META_SIZE - 1) ++
              r.take (c.BLOCK_SIZE - BLK_META_SIZE - file.blk_off)))
          n [48, 48, 48, 48])
          b (fmt_04ld n ++
            ((disk b).take (file.blk_off + BLK_META_SIZE - 1) ++
              r.take (c.BLOCK_SIZE - BLK_META_SIZE - file.blk_off)).drop BLK_META_SIZE))
        { file with blk_num := (n : Int), blk_off := 0 }
        (r.drop (c.BLOCK_SIZE - BLK_META_SIZE - file.blk_off)) nbyte
        (nwrote + (c.BLOCK_SIZE - BLK_META_SIZE - file.blk_off)) := by
  have hcs := cstr_name r hr
  have hsl := strlen_name r hr
  have hnmem : n ∈ free_blocks c disk := by simp [hfree]
  obtain ⟨⟨hn1, hnD⟩, hnfree⟩ := (mem_free_blocks c disk n).mp hnmem
  have hnb : n ≠ b := fun e => hnotfree (e ▸ hnfree)
  have h5 : BLK_META_SIZE = 5 := rfl
  have hwl : ((disk b).take (file.blk_off + BLK_META_SIZE - 1) ++
      r.take (c.BLOCK_SIZE - BLK_META_SIZE - file.blk_off)).length =
      min (file.blk_off + BLK_META_SIZE - 1) (disk b).length +
        min (c.BLOCK_SIZE - BLK_META_SIZE - file.blk_off) r.length := by
    simp [List.length_append, List.length_take]
  have hwlen : ((disk b).take (file.blk_off + BLK_META_SIZE - 1) ++
      r.take (c.BLOCK_SIZE - BLK_META_SIZE - file.blk_off)).length < c.BLOCK_SIZE := by
    omega
  have hw5 : BLK_META_SIZE ≤ ((disk b).take (file.blk_off + BLK_META_SIZE - 1) ++
      r.take (c.BLOCK_SIZE - BLK_META_SIZE - file.blk_off)).length := by
    omega
  have hwfree : (disk b).take (file.blk_off + BLK_META_SIZE - 1) ++
      r.take (c.BLOCK_SIZE - BLK_META_SIZE - file.blk_off) ≠ FREESTR := by
    intro e
    have := congrArg List.length e
    simp only [FREESTR, List.length_cons, List.length_nil] at this
    omega
  have hfree1 : free_blocks c (disk_set disk b
      ((disk b).take (file.blk_off + BLK_META_SIZE - 1) ++
        r.take (c.BLOCK_SIZE - BLK_META_SIZE - file.blk_off))) = n :: F := by
    rw [free_blocks_disk_set c disk b _ hwfree, filter_ne_of_not_mem _ _ _, hfree]
    intro hmem
    exact hnotfree ((mem_free_blocks c disk b).mp hmem).2
  have hlen3 : (fmt_04ld n ++
      ((disk b).take (file.blk_off + BLK_META_SIZE - 1) ++
        r.take (c.BLOCK_SIZE - BLK_META_SIZE - file.blk_off)).drop BLK_META_SIZE).length
        < c.BLOCK_SIZE := by
    rw [List.length_append, fmt_04ld_length n hn10, List.length_drop]
    omega
  rw [fs_write_loop, if_pos hlt, hblk, block_read_nat c disk b hb]
  simp only [Option.bind_eq_bind, Option.some_bind]
  rw [if_neg (by omega)]
  have hnw : (if c.BLOCK_SIZE - BLK_META_SIZE - file.blk_off > r.length then r.length
      else c.BLOCK_SIZE - BLK_META_SIZE - file.blk_off) =
        c.BLOCK_SIZE - BLK_META_SIZE - file.blk_off := if_neg (by omega)
  simp only [hcs, hsl, block_write_nat c disk b _ hb hwlen, Option.some_bind, hnw]
  rw [if_pos (by omega), get_free_bl_eq, hfree1]
  simp only [show ¬ ((n : Int) < 0) by omega, if_false, build_block_nat c _ n hnD,
    Option.some_bind, hblk, block_read_nat c _ b hb, Int.toNat_ofNat]
  have hrd : disk_set (disk_set disk b
      ((disk b).take (file.blk_off + BLK_META_SIZE - 1) ++
        r.take (c.BLOCK_SIZE - BLK_META_SIZE - file.blk_off))) n [48, 48, 48, 48] b =
      (disk b).take (file.blk_off + BLK_META_SIZE - 1) ++
        r.take (c.BLOCK_SIZE - BLK_META_SIZE - file.blk_off) := by
    simp [disk_set, hnb, Ne.symm hnb]
  rw [hrd]
  simp only [text_from, if_pos hw5, Option.some_bind, block_write_nat c _ b _ hb hlen3]

/-- The disk after one filling iteration of `fs_write`: block `b` got the text
`w`, the free block `n` was built and `b` was linked to it. -/
theorem write_cross_disk (c : Config) (disk : Disk) (b n : Nat) (w : Text) (F : List Nat)
    (hnotfree : disk b ≠ FREESTR) (hw : w ≠ FREESTR) (hfree : free_blocks c disk = n :: F) :
    ∃ disk3, disk_set (disk_set (disk_set disk b w) n [48, 48, 48, 48]) b
        (fmt_04ld n ++ w.drop BLK_META_SIZE) = disk3 ∧
      free_blocks c disk3 = F ∧ n ≠ b ∧ disk3 n = [48, 48, 48, 48] ∧
      disk3 b = fmt_04ld n ++ w.drop BLK_META_SIZE ∧
      ∀ i, i ≠ b → i ≠ n → disk3 i = disk i := by
  have hnmem : n ∈ free_blocks c disk := by simp [hfree]
  have hnfree := ((mem_free_blocks c disk n).mp hnmem).2
  have hnb : n ≠ b := fun e => hnotfree (e ▸ hnfree)
  have hbF : b ∉ free_blocks c disk := fun hmem => hnotfree ((mem_free_blocks c disk b).mp hmem).2
  have hnd := free_blocks_nodup c disk
  rw [hfree] at hnd hbF
  have hbF2 : b ∉ F := fun h => hbF (List.mem_cons_of_mem _ h)
  refine ⟨_, rfl, ?_, hnb, ?_, ?_, ?_⟩
  · rw [free_blocks_disk_set c _ b _ (fmt_04ld_ne_free n _),
      free_blocks_disk_set c _ n _ (by decide), free_blocks_disk_set c _ b _ hw, hfree,
      filter_ne_of_not_mem _ _ hbF, filter_ne_head _ _ hnd, filter_ne_of_not_mem _ _ hbF2]
  · simp [disk_set, hnb]
  · simp [disk_set]
  · intro i hib hin
    simp [disk_set, hib, hin]

theorem take4_write (t r : Text) (o : Nat) (h4 : 4 ≤ t.length) :
    (t.take (o + BLK_META_SIZE - 1) ++ r).take (BLK_META_SIZE - 1) = t.take (BLK_META_SIZE - 1) := by
  have h5 : BLK_META_SIZE = 5 := rfl
  rw [List.take_append_of_le_length (by simp only [List.length_take]; omega), List.take_take]
  congr 1
  omega

/-- The loop of `fs_write` from a handle on the last block `b` of a chain, at an
offset below the capacity, with `k` free blocks at hand where `k` is the number
of times the data fills a block: all of `r` is written, the first `k` free
blocks are taken in order and appended to the chain. -/
theorem write_loop_spec (c : Config) (hc : c.ok) :
    ∀ (fuel : Nat) (r : List Nat) (disk : Disk) (file : fildes) (b : Nat)
      (nbyte nwrote k : Nat),
      file.blk_num = (b : Int) → 0 < b → b < c.DISK_BLOCKS →
      file.blk_off < c.BLOCK_SIZE - BLK_META_SIZE →
      4 ≤ (disk b).length → atoi_number ((disk b).take (BLK_META_SIZE - 1)) = 0 →
      (∀ ch ∈ r, ch ≠ 0) → nwrote + r.length = nbyte → 2 * r.length + 2 ≤ fuel →
      k = (file.blk_off + r.length) / (c.BLOCK_SIZE - BLK_META_SIZE) →
      k ≤ (free_blocks c disk).length →
      ∃ disk2 file2,
        fs_write_loop c fuel disk file r nbyte nwrote = some ((nbyte : Int), disk2, file2) ∧
        free_blocks c disk2 = (free_blocks c disk).drop k ∧
        Chain c disk2 (b : Int) (b :: (free_blocks c disk).take k) ∧
        (∀ i, i ≠ b → i ∉ (free_blocks c disk).take k → disk2 i = disk i) ∧
        (k = 0 → r ≠ [] →
          disk2 = disk_set disk b ((disk b).take (file.blk_off + BLK_META_SIZE - 1) ++ r)) ∧
        (r = [] → disk2 = disk) ∧
        file2.blk_off = (file.blk_off + r.length) % (c.BLOCK_SIZE - BLK_META_SIZE) ∧
        file2.fname = file.fname ∧
        file2.blk_num = ((((free_blocks c disk).take k).getLastD b : Nat) : Int) := by
  intro fuel
  induction fuel with
  | zero => intros; omega
  | succ fuel ih =>
    intro r disk file b nbyte nwrote k hblk hb0 hbD hoff h4 hnext hr hsum hfuel hk hkF
    have h5 : BLK_META_SIZE = 5 := rfl
    have hbnf : disk b ≠ FREESTR := by
      intro e
      rw [e] at hnext
      revert hnext
      decide
    have hbF : b ∉ free_blocks c disk :=
      fun hmem => hbnf ((mem_free_blocks c disk b).mp hmem).2
    by_cases hfit : file.blk_off + r.length < c.BLOCK_SIZE - BLK_META_SIZE
    · have hk0 : k = 0 := by rw [hk]; exact Nat.div_eq_of_lt hfit
      subst hk0
      by_cases hnil : r = []
      · subst hnil
        simp only [List.length_nil, Nat.add_zero] at hsum
        subst hsum
        refine ⟨disk, file, write_loop_done c fuel disk file [] _ _ (by omega), by simp,
          ⟨rfl, hb0, hbD, hnext⟩, fun _ _ _ => rfl, fun _ h => absurd rfl h, fun _ => rfl,
          ?_, rfl, by simpa using hblk⟩
        simp only [List.length_nil, Nat.add_zero]
        exact (Nat.mod_eq_of_lt hoff).symm
      · have hlen : 0 < r.length := List.length_pos.mpr hnil
        obtain ⟨fuel2, rfl⟩ : ∃ f, fuel = f + 1 := ⟨fuel - 1, by omega⟩
        have hwl : ((disk b).take (file.blk_off + BLK_META_SIZE - 1) ++ r).length =
            min (file.blk_off + BLK_META_SIZE - 1) (disk b).length + r.length := by
          simp [List.length_append, List.length_take]
        have hwfree : (disk b).take (file.blk_off + BLK_META_SIZE - 1) ++ r ≠ FREESTR := by
          intro e
          have := congrArg List.length e
          simp only [FREESTR, List.length_cons, List.length_nil] at this
          omega
        rw [write_loop_fits c (fuel2 + 1) disk file b r nbyte nwrote hblk hbD hr (by omega) hfit,
          write_loop_done c fuel2 _ _ _ nbyte (nwrote + r.length) (by omega), hsum]
        refine ⟨_, _, rfl, ?_, ⟨rfl, hb0, hbD, ?_⟩, ?_, fun _ _ => rfl, fun h => absurd h hnil,
          ?_, rfl, by simp [hblk]⟩
        · rw [free_blocks_disk_set c disk b _ hwfree, filter_ne_of_not_mem _ _ hbF]
          simp
        · have : disk_set disk b ((disk b).take (file.blk_off + BLK_META_SIZE - 1) ++ r) b =
              (disk b).take (file.blk_off + BLK_META_SIZE - 1) ++ r := by simp [disk_set]
          rw [this, take4_write _ _ _ h4]
          exact hnext
        · intro i hib _
          simp [disk_set, hib]
        · exact (Nat.mod_eq_of_lt hfit).symm
    · have hcross : c.BLOCK_SIZE - BLK_META_SIZE ≤ file.blk_off + r.length := by omega
      have hCpos : 0 < c.BLOCK_SIZE - BLK_META_SIZE := by omega
      have hk1 : k = (file.blk_off + r.length - (c.BLOCK_SIZE - BLK_META_SIZE)) /
          (c.BLOCK_SIZE - BLK_META_SIZE) + 1 := by
        rw [hk, Nat.div_eq (file.blk_off + r.length), if_pos ⟨hCpos, hcross⟩]
      generalize hq : (file.blk_off + r.length - (c.BLOCK_SIZE - BLK_META_SIZE)) /
          (c.BLOCK_SIZE - BLK_META_SIZE) = q at hk1
      have hlt : nwrote < nbyte := by omega
      have e1 : nwrote + (c.BLOCK_SIZE - BLK_META_SIZE - file.blk_off) +
          (file.blk_off + r.length - (c.BLOCK_SIZE - BLK_META_SIZE)) = nbyte := by omega
      have e2 : 2 * (file.blk_off + r.length - (c.BLOCK_SIZE - BLK_META_SIZE)) + 2 ≤ fuel := by
        omega
      cases hF : free_blocks c disk with
      | nil => rw [hF] at hkF; simp at hkF; omega
      | cons n F =>
        have hnmem : n ∈ free_blocks c disk := by simp [hF]
        obtain ⟨⟨hn1, hnD⟩, _⟩ := (mem_free_blocks c disk n).mp hnmem
        have hn10 : n < 10000 := by have := hc.2.1; omega
        have hwl : ((disk b).take (file.blk_off + BLK_META_SIZE - 1) ++
            r.take (c.BLOCK_SIZE - BLK_META_SIZE - file.blk_off)).length =
            min (file.blk_off + BLK_META_SIZE - 1) (disk b).length +
              min (c.BLOCK_SIZE - BLK_META_SIZE - file.blk_off) r.length := by
          simp [List.length_append, List.length_take]
        have hwfree : (disk b).take (file.blk_off + BLK_META_SIZE - 1) ++
            r.take (c.BLOCK_SIZE - BLK_META_SIZE - file.blk_off) ≠ FREESTR := by
          intro e
          have := congrArg List.length e
          simp only [FREESTR, List.length_cons, List.length_nil] at this
          omega
        obtain ⟨disk3, hd3, hfree3, hnb, hd3n, hd3b, hd3o⟩ :=
          write_cross_disk c disk b n _ F hbnf hwfree hF
        have hdl : (r.drop (c.BLOCK_SIZE - BLK_META_SIZE - file.blk_off)).length =
            file.blk_off + r.length - (c.BLOCK_SIZE - BLK_META_SIZE) := by
          rw [List.length_drop]; omega
        rw [hF] at hkF
        simp only [List.length_cons] at hkF
        obtain ⟨disk2, file2, hrun, hfree2, hchain2, hframe2, _, _, hoff2, hname2, hblk2⟩ :=
          ih (r.drop (c.BLOCK_SIZE - BLK_META_SIZE - file.blk_off)) disk3
            { file with blk_num := (n : Int), blk_off := 0 } n nbyte
            (nwrote + (c.BLOCK_SIZE - BLK_META_SIZE - file.blk_off)) (k - 1) rfl (by omega) hnD
            hCpos (by rw [hd3n]; simp) (by rw [hd3n]; decide)
            (fun ch hch => hr ch (List.mem_of_mem_drop hch)) (by rw [hdl]; exact e1)
            (by rw [hdl]; exact e2)
            (by
              show k - 1 = (0 + _) / _
              rw [Nat.zero_add, hdl, hq]
              omega)
            (by rw [hfree3]; omega)
        rw [hfree3] at hfree2 hchain2 hframe2 hblk2
        obtain ⟨k2, rfl⟩ : ∃ j, k = j + 1 := ⟨k - 1, by omega⟩
        simp only [Nat.add_sub_cancel] at hfree2 hchain2 hframe2 hblk2 hrun
        have hbF2 : b ∉ F.take k2 := by
          rw [hF] at hbF
          exact fun h => hbF (List.mem_cons_of_mem _ (List.mem_of_mem_take h))
        rw [write_loop_cross c fuel disk file b n F r nbyte nwrote hblk hbD hr hlt hoff
          hcross h4 hn10 hF hbnf, hd3, hrun]
        refine ⟨disk2, file2, rfl, by simpa using hfree2, ⟨rfl, hb0, hbD, ?_⟩, ?_,
          fun h => absurd h (by omega), fun h => ?_, ?_, hname2, ?_⟩
        · rw [hframe2 b (Ne.symm hnb) hbF2, hd3b, atoi_take_fmt_04ld n hn10]
          simpa using hchain2
        · intro i hib hi
          simp only [List.take_succ_cons, List.mem_cons, not_or] at hi
          rw [hframe2 i hi.1 hi.2, hd3o i hib hi.1]
        · subst h
          simp at hcross
          omega
        · rw [hoff2, hdl, Nat.zero_add]
          exact (Nat.mod_eq_sub_mod hcross).symm
        · rw [hblk2, List.take_succ_cons]
          cases F.take k2 with
          | nil => rfl
          | cons x xs => rfl

/-- The lemma `write_loop_spec` for the whole of `fs_write`, called with the
length of a NUL-free buffer. -/
theorem fs_write_spec (c : Config) (hc : c.ok) (s : Volume) (fd : Int) (file : fildes)
    (b : Nat) (d : List Nat) (k : Nat)
    (hfile : get_file c s.open_fildes fd = some (some file))
    (hblk : file.blk_num = (b : Int)) (hb0 : 0 < b) (hbD : b < c.DISK_BLOCKS)
    (hoff : file.blk_off < c.BLOCK_SIZE - BLK_META_SIZE)
    (h4 : 4 ≤ (s.disk b).length) (hnext : atoi_number ((s.disk b).take (BLK_META_SIZE - 1)) = 0)
    (hd : ∀ ch ∈ d, ch ≠ 0)
    (hk : k = (file.blk_off + d.length) / (c.BLOCK_SIZE - BLK_META_SIZE))
    (hkF : k ≤ (free_blocks c s.disk).length) :
    ∃ disk2 file2,
      fs_write c s fd d d.length = some ((d.length : Int), s.put disk2 fd.toNat file2) ∧
      free_blocks c disk2 = (free_blocks c s.disk).drop k ∧
      Chain c disk2 (b : Int) (b :: (free_blocks c s.disk).take k) ∧
      (∀ i, i ≠ b → i ∉ (free_blocks c s.disk).take k → disk2 i = s.disk i) ∧
      (k = 0 → d ≠ [] →
        disk2 = disk_set s.disk b ((s.disk b).take (file.blk_off + BLK_META_SIZE - 1) ++ d)) ∧
      (d = [] → disk2 = s.disk) ∧
      file2.blk_off = (file.blk_off + d.length) % (c.BLOCK_SIZE - BLK_META_SIZE) ∧
      file2.fname = file.fname ∧
      file2.blk_num = ((((free_blocks c s.disk).take k).getLastD b : Nat) : Int) := by
  obtain ⟨disk2, file2, hrun, h1, h2, h3, h4, h5, h6, h7, h8⟩ :=
    write_loop_spec c hc (2 * d.length + 2) d s.disk file b d.length 0 k hblk hb0 hbD hoff h4
      hnext hd (by simp) (le_refl _) hk hkF
  refine ⟨disk2, file2, ?_, h1, h2, h3, h4, h5, h6, h7, h8⟩
  have hsl := strlen_name d hd
  simp [fs_write, hfile, hsl, hrun]

/-- A read that the block under the handle can serve alone: `nbyte` bytes of
the block's text from the handle's offset are copied to the caller's buffer. -/
theorem fs_read_in_block (c : Config) (fuel : Nat) (s : Volume) (fd : Int) (file : fildes)
    (b : Nat) (buf : List Nat) (nbyte : Nat)
    (hfile : get_file c s.open_fildes fd = some (some file))
    (hblk : file.blk_num = (b : Int)) (hbD : b < c.DISK_BLOCKS)
    (hoff : file.blk_off + BLK_META_SIZE - 1 + nbyte ≤ (s.disk b).length)
    (hbuf : nbyte ≤ buf.length) :
    fs_read c fuel s fd buf nbyte =
      some ((nbyte : Int),
        ((s.disk b).drop (file.blk_off + BLK_META_SIZE - 1)).take nbyte ++ buf.drop nbyte, s) := by
  obtain ⟨h0, h1, hslot⟩ := get_file_some c _ fd file hfile
  unfold fs_read
  rw [if_neg (by omega)]
  simp only [hslot, hblk, block_read_nat c s.disk b hbD, Option.bind_eq_bind, Option.some_bind,
    text_from]
  rw [if_pos (by omega)]
  simp only [Option.some_bind, List.length_drop]
  rw [if_pos (by omega)]
  simp only [strncpy, if_pos hbuf, Option.some_bind, List.length_drop]
  have : nbyte - ((s.disk b).length - (file.blk_off + BLK_META_SIZE - 1)) = 0 := by omega
  simp [this]

theorem get_head_congr (c : Config) (disk disk2 : Disk) (fname : List Nat)
    (h : disk2 0 = disk 0) : get_head c disk2 fname = get_head c disk fname := by
  simp [get_head, block_read, h]

/-- No block of a chain holds the free marker. -/
theorem chain_mem_not_free (c : Config) (disk : Disk) :
    ∀ (bs : List Nat) (h : Int) (x : Nat), Chain c disk h bs → x ∈ bs → disk x ≠ FREESTR
  | [], _, _, _, hx => by simp at hx
  | b :: bs, h, x, hc, hx => by
    obtain ⟨_, _, _, hrest⟩ := hc
    rcases List.mem_cons.mp hx with rfl | hx
    · intro e
      rw [e] at hrest
      have h100 : atoi_number (FREESTR.take (BLK_META_SIZE - 1)) = -100 := by decide
      rw [h100] at hrest
      cases bs with
      | nil => simp [Chain] at hrest
      | cons b2 bs2 =>
        obtain ⟨e2, _⟩ := hrest
        omega
    · exact chain_mem_not_free c disk bs _ x hrest hx

/-- Replacing the end of a chain: the blocks before `b` are untouched and a
new chain hangs from `b`. -/
theorem chain_replace_suffix (c : Config) (disk disk2 : Disk) :
    ∀ (l1 : List Nat) (b : Nat) (l2 l3 : List Nat) (h : Int),
      Chain c disk h (l1 ++ b :: l2) → (∀ x ∈ l1, disk2 x = disk x) →
      Chain c disk2 (b : Int) (b :: l3) → Chain c disk2 h (l1 ++ b :: l3)
  | [], b, l2, l3, h, hc, _, hnew => by
    obtain ⟨e, _, _, _⟩ := hc
    obtain ⟨_, h0, h1, h2⟩ := hnew
    exact ⟨e, h0, h1, h2⟩
  | a :: l1, b, l2, l3, h, hc, hagree, hnew => by
    obtain ⟨e, h0, h1, h2⟩ := hc
    refine ⟨e, h0, h1, ?_⟩
    rw [hagree a (by simp)]
    exact chain_replace_suffix c disk disk2 l1 b l2 l3 _ h2
      (fun x hx => hagree x (by simp [hx])) hnew

/-! ### `fs_create` -/

theorem fmt_ld_length_le (b : Nat) (hb : b < 10000) : (fmt_ld b).length ≤ 4 :=
  dec_digits_length_le b b 3 (by simpa using hb)

/-- The bound `MAX_KV_SIZE` is for: an entry with a name of at most 15 bytes
and a block number below 10000 has at most 21 bytes. -/
theorem dir_entry_length_le (name : Text) (b : Nat) (hn : name.length ≤ 15) (hb : b < 10000) :
    (name ++ [58] ++ fmt_ld b ++ [59]).length < MAX_KV_SIZE := by
  have := fmt_ld_length_le b hb
  simp only [List.length_append, List.length_singleton, MAX_KV_SIZE, BLK_META_SIZE]
  omega

/-- Every error return of `fs_create` leaves the state as it was. -/
theorem fs_create_error_unchanged (c : Config) (s s2 : Volume) (name : List Nat) (r : Int)
    (h : fs_create c s name = some (r, s2)) (hr : r ≠ 0) : s2 = s := by
  unfold fs_create at h
  by_cases h1 : strlen name > c.FILENAME_SIZE
  · rw [if_pos h1] at h
    simp only [Option.some.injEq, Prod.mk.injEq] at h; exact h.2.symm
  rw [if_neg h1] at h
  simp only at h
  by_cases h2 : get_free_bl c s.disk < 0
  · rw [if_pos h2] at h
    simp only [Option.some.injEq, Prod.mk.injEq] at h; exact h.2.symm
  rw [if_neg h2] at h
  simp only [Option.bind_eq_bind] at h
  cases hg : get_head c s.disk name with
  | none => simp [hg] at h
  | some head =>
    simp only [hg, Option.some_bind] at h
    by_cases h3 : head ≠ c.NO_FILE
    · rw [if_pos h3] at h
      simp only [Option.some.injEq, Prod.mk.injEq] at h; exact h.2.symm
    rw [if_neg h3] at h
    cases hb : block_read c s.disk 0 with
    | none => simp [hb] at h
    | some buff =>
      simp only [hb, Option.some_bind] at h
      by_cases h4 : c.BLOCK_SIZE ≤ buff.length
      · simp [h4] at h
      rw [if_neg h4] at h
      by_cases h5 : c.BLOCK_SIZE - buff.length ≤ MAX_KV_SIZE
      · rw [if_pos h5] at h
        simp only [Option.some.injEq, Prod.mk.injEq] at h; exact h.2.symm
      rw [if_neg h5] at h
      cases hw : block_write c s.disk 0
          (buff ++ cstr name ++ [58] ++ fmt_ld (get_free_bl c s.disk).toNat ++ [59]) with
      | none =>
        rw [hw] at h
        simp at h
      | some d1 =>
        simp only [hw, Option.some_bind] at h
        cases hbb : build_block c d1 (get_free_bl c s.disk) with
        | none => simp [hbb] at h
        | some d2 =>
          simp only [hbb, Option.some_bind, Option.some.injEq, Prod.mk.injEq] at h
          exact absurd h.1.symm hr

/-- The path of `fs_create` up to the test of the directory's room: with a free
block `b` and a name that `get_head` does not find, the outcome is decided by
the length of the directory text. -/
theorem fs_create_new (c : Config) (s : Volume) (name : List Nat) (b : Nat)
    (F : List Nat) (hlen : strlen name ≤ c.FILENAME_SIZE)
    (hF : free_blocks c s.disk = b :: F)
    (hnew : get_head c s.disk name = some c.NO_FILE)
    (hfit : (s.disk 0).length < c.BLOCK_SIZE) :
    fs_create c s name =
      if c.BLOCK_SIZE - (s.disk 0).length ≤ MAX_KV_SIZE then some (c.SO_MUCH_FILE, s)
      else if (s.disk 0 ++ cstr name ++ [58] ++ fmt_ld b ++ [59]).length < c.BLOCK_SIZE then
        some (0, { disk := disk_set (disk_set s.disk 0
                      (s.disk 0 ++ cstr name ++ [58] ++ fmt_ld b ++ [59])) b [48, 48, 48, 48],
                   open_fildes := s.open_fildes })
      else none := by
  have hbmem : b ∈ free_blocks c s.disk := by simp [hF]
  obtain ⟨⟨hb1, hbD⟩, _⟩ := (mem_free_blocks c s.disk b).mp hbmem
  have hD : 0 < c.DISK_BLOCKS := by omega
  have hr : block_read c s.disk 0 = some (s.disk 0) := by
    simpa using block_read_nat c s.disk 0 hD
  unfold fs_create
  rw [if_neg (by omega), get_free_bl_eq, hF]
  simp only [show ¬ ((b : Int) < 0) by omega, if_false, hnew, Option.bind_eq_bind,
    Option.some_bind, hr, Int.toNat_ofNat, ne_eq, not_true_eq_false]
  rw [if_neg (by omega)]
  by_cases h4 : c.BLOCK_SIZE - (s.disk 0).length ≤ MAX_KV_SIZE
  · simp [h4]
  · rw [if_neg h4, if_neg h4]
    by_cases h5 : (s.disk 0 ++ cstr name ++ [58] ++ fmt_ld b ++ [59]).length < c.BLOCK_SIZE
    · have hw := block_write_nat c s.disk 0 _ hD h5
      simp only [Nat.cast_zero] at hw
      rw [if_pos h5, hw, Option.some_bind, build_block_nat c _ b hbD]
      rfl
    · rw [if_neg h5]
      have hw : block_write c s.disk 0 (s.disk 0 ++ cstr name ++ [58] ++ fmt_ld b ++ [59]) =
          none := by
        unfold block_write
        rw [if_neg (fun hh => h5 hh.2.2)]
      rw [hw]
      rfl

/-- The first free block is the lowest one. -/
theorem free_blocks_head_lowest (c : Config) (disk : Disk) (b : Nat) (F : List Nat)
    (hF : free_blocks c disk = b :: F) : ∀ j, 1 ≤ j → j < b → disk j ≠ FREESTR := by
  intro j h1 h2 hfree
  have hbmem : b ∈ free_blocks c disk := by simp [hF]
  obtain ⟨⟨_, hbD⟩, _⟩ := (mem_free_blocks c disk b).mp hbmem
  have hj : j ∈ free_blocks c disk := (mem_free_blocks c disk j).mpr ⟨⟨h1, by omega⟩, hfree⟩
  have hp : (free_blocks c disk).Pairwise (fun a b => a < b) :=
    List.Pairwise.filter _ (List.pairwise_lt_range' 1 _)
  rw [hF] at hj hp
  rcases List.mem_cons.mp hj with rfl | hj
  · omega
  · have := (List.pairwise_cons.mp hp).1 j hj
    omega

theorem free_blocks_ne_nil (c : Config) (disk : Disk) (j : Nat)
    (h : 1 ≤ j ∧ j < c.DISK_BLOCKS ∧ disk j = FREESTR) :
    ∃ b F, free_blocks c disk = b :: F := by
  have hj : j ∈ free_blocks c disk := (mem_free_blocks c disk j).mpr ⟨⟨h.1, h.2.1⟩, h.2.2⟩
  cases hF : free_blocks c disk with
  | nil => rw [hF] at hj; simp at hj
  | cons b F => exact ⟨b, F, rfl⟩

theorem strncmp_eq_iff (a b : Text) (n : Nat) (ha : a.length ≤ n) (hb : b.length ≤ n) :
    strncmp_eq a b n = true ↔ a = b := by
  simp [strncmp_eq, List.take_of_length_le ha, List.take_of_length_le hb]

theorem dir_lookup_new (c : Config) (name : Text) (es : List (Text × Nat)) (hok : dir_ok c es)
    (hlen : name.length ≤ c.FILENAME_SIZE) (hnew : ∀ e ∈ es, e.1 ≠ name) :
    dir_lookup c name es = some c.NO_FILE := by
  unfold dir_lookup
  have : es.find? (fun e => strncmp_eq name e.1 c.FILENAME_SIZE) = none := by
    rw [List.find?_eq_none]
    intro e he hm
    exact hnew e he ((strncmp_eq_iff name e.1 _ hlen (hok e he).2).mp hm).symm
  rw [this]

theorem dir_lookup_old (c : Config) (name : Text) (es : List (Text × Nat))
    (hheads : ∀ e ∈ es, e.2 ≤ 2147483647) (hex : ∃ e ∈ es, e.1 = name) :
    ∃ h : Nat, dir_lookup c name es = some (h : Int) := by
  unfold dir_lookup
  cases hf : es.find? (fun e => strncmp_eq name e.1 c.FILENAME_SIZE) with
  | some e => exact ⟨e.2, atoi_fmt_ld_some e.2 (hheads e (List.mem_of_find?_eq_some hf))⟩
  | none =>
    rw [List.find?_eq_none] at hf
    obtain ⟨e, he, rfl⟩ := hex
    exact absurd (by simp [strncmp_eq]) (hf e he)

/-! ### `fs_delete` -/

theorem dropWhile_head_false (p : Nat → Bool) : ∀ (l : List Nat) (a : Nat) (rest : List Nat),
    l.dropWhile p = a :: rest → p a = false
  | [], a, rest, h => by simp at h
  | x :: l, a, rest, h => by
    rw [List.dropWhile_cons] at h
    split_ifs at h with hx
    · exact dropWhile_head_false p l a rest h
    · simp only [List.cons.injEq] at h
      rw [← h.1]
      simpa using hx

theorem strtok_next_split (t sk kv r : Text) (h : strtok_next t = some (sk, kv, some r)) :
    t = sk ++ kv ++ 59 :: r ∧ kv ≠ [] := by
  unfold strtok_next at h
  simp only at h
  split_ifs at h with h1
  have hsplit := List.takeWhile_append_dropWhile (fun ch => decide (ch = 59)) t
  obtain ⟨x, t1, ht1⟩ := List.exists_cons_of_ne_nil h1
  have hx := dropWhile_head_false _ t x t1 ht1
  rw [ht1] at h hsplit
  have hsplit2 := List.takeWhile_append_dropWhile (fun ch => decide (ch ≠ 59)) (x :: t1)
  cases hd : List.dropWhile (fun ch => decide (ch ≠ 59)) (x :: t1) with
  | nil => rw [hd] at h; simp at h
  | cons a rest =>
    have ha := dropWhile_head_false _ (x :: t1) a rest hd
    rw [hd] at h hsplit2
    simp only [Option.some.injEq, Prod.mk.injEq] at h
    obtain ⟨rfl, rfl, rfl⟩ := h
    have ha59 : a = 59 := by simpa using ha
    subst ha59
    constructor
    · rw [List.append_assoc, hsplit2, hsplit]
    · rw [List.takeWhile_cons, if_pos (by simpa using hx)]
      simp

theorem strtok_next_entry (e : Text × Nat) (rest : Text) (h : name_ok e.1) :
    strtok_next (dir_entry e ++ rest) = some ([], dir_token e, some rest) := by
  have hsplit : dir_entry e ++ rest = dir_token e ++ 59 :: rest := by
    simp [dir_entry, dir_token]
  have htok : ∀ ch ∈ dir_token e, decide (ch ≠ 59) = true := by
    intro ch hch
    simp only [dir_token, List.mem_append, List.mem_singleton] at hch
    rcases hch with (hch | hch) | hch
    · simpa using (h ch hch).2.2
    · subst hch; decide
    · simpa using (fmt_ld_no_semi e.2 ch hch).1
  have hne : dir_token e ≠ [] := by simp [dir_token]
  obtain ⟨a, tl, hat⟩ := List.exists_cons_of_ne_nil hne
  have ha : a ≠ 59 := by simpa using htok a (by simp [hat])
  have h1 : (dir_token e ++ 59 :: rest).takeWhile (fun ch => decide (ch = 59)) = [] := by
    rw [hat]; simp [List.takeWhile, ha]
  have h2 : (dir_token e ++ 59 :: rest).dropWhile (fun ch => decide (ch = 59)) =
      dir_token e ++ 59 :: rest := by
    rw [hat]; simp [List.dropWhile, ha]
  have h3 : (dir_token e ++ 59 :: rest).takeWhile (fun ch => decide (ch ≠ 59)) = dir_token e := by
    rw [List.takeWhile_append_of_pos htok]; simp [List.takeWhile]
  have h4 : (dir_token e ++ 59 :: rest).dropWhile (fun ch => decide (ch ≠ 59)) = 59 :: rest := by
    rw [List.dropWhile_append_of_pos htok]; simp [List.dropWhile]
  unfold strtok_next
  simp only [hsplit, h1, h2, h3, h4]
  rw [if_neg (by simp)]

/-- The text `fs_delete` writes back is shorter than the text it read. -/
theorem fs_delete_scan_length (c : Config) (name : Text) :
    ∀ (fuel : Nat) (pre t t2 : Text), fs_delete_scan c name fuel pre t = some t2 →
      t2.length < pre.length + t.length
  | 0, _, _, _, h => by simp [fs_delete_scan] at h
  | fuel + 1, pre, t, t2, h => by
    unfold fs_delete_scan at h
    cases hs : strtok_next t with
    | none => simp [hs] at h
    | some x =>
      obtain ⟨sk, kv, rest⟩ := x
      simp only [hs] at h
      split_ifs at h with h1 h2
      · cases rest with
        | none => simp at h
        | some r =>
          simp only [Option.some.injEq] at h
          obtain ⟨hsplit, hne⟩ := strtok_next_split t sk kv r hs
          have hkv : 0 < kv.length := List.length_pos.mpr hne
          rw [← h, hsplit]
          simp only [List.length_append, List.length_cons]
          omega
      · cases rest with
        | none => simp at h
        | some r =>
          simp only at h
          obtain ⟨hsplit, _⟩ := strtok_next_split t sk kv r hs
          have ih := fs_delete_scan_length c name fuel _ r t2 h
          rw [hsplit]
          simp only [List.length_append, List.length_cons, List.length_singleton,
            List.length_nil] at ih ⊢
          omega

theorem strncmp_eq_false (a b : Text) (n : Nat) (hb : b.length < n) (hab : a ≠ b) :
    strncmp_eq a b n = false := by
  simp only [strncmp_eq, decide_eq_false_iff_not]
  intro h
  rw [List.take_of_length_le (Nat.le_of_lt hb)] at h
  by_cases ha : a.length ≤ n
  · rw [List.take_of_length_le ha] at h
    exact hab h
  · have := congrArg List.length h
    rw [List.length_take] at this
    omega

/-- The token loop of `fs_delete` on a directory of records in which the
record of `name` stands behind the records `P`, none of which has that
name. -/
theorem fs_delete_scan_dir (c : Config) (name : Text) (h : Nat) (S : List (Text × Nat))
    (hname : name_ok name) (hlen : name.length < c.BLOCK_SIZE) :
    ∀ (P : List (Text × Nat)) (pre : Text) (fuel : Nat),
      (∀ e ∈ P, name_ok e.1 ∧ e.1 ≠ name) → P.length < fuel →
      fs_delete_scan c name fuel pre (dir_text (P ++ (name, h) :: S)) =
        some (pre ++ dir_text P ++ dir_text S)
  | [], pre, fuel, _, hf => by
    obtain ⟨fuel, rfl⟩ : ∃ k, fuel = k + 1 := ⟨fuel - 1, by omega⟩
    have hk : (dir_token (name, h)).takeWhile (fun ch => ch ≠ 58) = name := by
      simp only [dir_token, List.append_assoc, List.singleton_append]
      exact takeWhile_name name _ hname
    show fs_delete_scan c name (fuel + 1) pre (dir_entry (name, h) ++ dir_text S) = _
    rw [fs_delete_scan, strtok_next_entry (name, h) (dir_text S) hname]
    simp only [hk]
    rw [if_pos (by simp [dir_token]), if_pos (by simp [strncmp_eq])]
    simp [dir_text]
  | e :: P, pre, fuel, hP, hf => by
    obtain ⟨fuel, rfl⟩ : ∃ k, fuel = k + 1 := ⟨fuel - 1, by omega⟩
    have he := hP e (by simp)
    have hk : (dir_token e).takeWhile (fun ch => ch ≠ 58) = e.1 := by
      simp only [dir_token, List.append_assoc, List.singleton_append]
      exact takeWhile_name e.1 _ he.1
    have ih := fs_delete_scan_dir c name h S hname hlen P (pre ++ [] ++ dir_token e ++ [59]) fuel
      (fun x hx => hP x (by simp [hx])) (by simpa using hf)
    show fs_delete_scan c name (fuel + 1) pre
      (dir_entry e ++ dir_text (P ++ (name, h) :: S)) = _
    rw [fs_delete_scan, strtok_next_entry e (dir_text (P ++ (name, h) :: S)) he.1]
    simp only [hk]
    rw [if_pos (by simp [dir_token]), if_neg (by
      rw [strncmp_eq_false e.1 name _ hlen he.2]; simp)]
    rw [ih]
    simp [dir_text, dir_entry, dir_token]

theorem dir_text_length_ge : ∀ (es : List (Text × Nat)), es.length ≤ (dir_text es).length
  | [] => by simp [dir_text]
  | e :: es => by
    have := dir_text_length_ge es
    simp only [dir_text, dir_entry, List.length_cons, List.length_append, List.length_singleton]
    omega

theorem fs_open_disk (c : Config) (s s1 : Volume) (name : List Nat) (r : Int)
    (h : fs_open c s name = some (r, s1)) : s1.disk = s.disk := by
  unfold fs_open at h
  by_cases h1 : is_open c s.open_fildes name = 1
  · rw [if_pos h1] at h
    simp only [Option.some.injEq, Prod.mk.injEq] at h
    rw [← h.2]
  rw [if_neg h1] at h
  by_cases h2 : s.open_fildes.num_open ≥ c.MAX_DESC
  · rw [if_pos h2] at h
    simp only [Option.some.injEq, Prod.mk.injEq] at h
    rw [← h.2]
  rw [if_neg h2] at h
  cases hf : (List.range c.MAX_DESC).find? (fun fd => (s.open_fildes.fds fd).isNone) with
  | none => simp [hf] at h
  | some slot =>
    simp only [hf, Option.bind_eq_bind] at h
    cases hg : get_head c s.disk name with
    | none => simp [hg] at h
    | some head =>
      simp only [hg, Option.some_bind, Option.some.injEq, Prod.mk.injEq] at h
      rw [← h.2]

theorem fs_lseek_disk (c : Config) (s s1 : Volume) (fd : Int) (offset : Nat) (r : Int)
    (h : fs_lseek c s fd offset = some (r, s1)) : s1.disk = s.disk := by
  unfold fs_lseek at h
  simp only [Option.bind_eq_bind] at h
  cases hf : get_file c s.open_fildes fd with
  | none => simp [hf] at h
  | some f =>
    cases f with
    | none =>
      simp only [hf, Option.some_bind, Option.some.injEq, Prod.mk.injEq] at h
      rw [← h.2]
    | some file =>
      simp only [hf, Option.some_bind] at h
      cases hg : get_head c s.disk file.fname with
      | none => simp [hg] at h
      | some head =>
        simp only [hg, Option.some_bind] at h
        cases hl : fs_lseek_loop c s.disk head (offset / c.BLOCK_SIZE) 0 head with
        | none => simp [hl] at h
        | some x =>
          simp only [hl, Option.some_bind] at h
          cases x with
          | inl err =>
            simp only [Option.some.injEq, Prod.mk.injEq] at h
            rw [← h.2]; rfl
          | inr p =>
            obtain ⟨i, cb⟩ := p
            simp only at h
            split_ifs at h
            · simp only [Option.some.injEq, Prod.mk.injEq] at h
              rw [← h.2]; rfl
            · simp only [Option.some.injEq, Prod.mk.injEq] at h
              rw [← h.2]; rfl

theorem fs_truncate_loop_disk0 (c : Config) :
    ∀ (fuel : Nat) (disk disk2 : Disk) (x : Int),
      fs_truncate_loop c fuel disk x x = some disk2 → disk2 0 = disk 0
  | 0, _, _, _, h => by simp [fs_truncate_loop] at h
  | fuel + 1, disk, disk2, x, h => by
    unfold fs_truncate_loop at h
    by_cases hx : x > 0
    · rw [if_pos hx] at h
      simp only [Option.bind_eq_bind] at h
      cases hn : get_next_blk c disk x with
      | none => simp [hn] at h
      | some nxt =>
        simp only [hn, Option.some_bind] at h
        cases hr : block_read c disk x with
        | none => simp [hr] at h
        | some buff =>
          simp only [hr, Option.some_bind] at h
          cases hw : block_write c disk x FREESTR with
          | none => simp [hw] at h
          | some d1 =>
            simp only [hw, Option.some_bind] at h
            have ih := fs_truncate_loop_disk0 c fuel d1 disk2 nxt h
            rw [ih]
            unfold block_write at hw
            split_ifs at hw
            simp only [Option.some.injEq] at hw
            rw [← hw]
            have : (0 : Nat) ≠ x.toNat := by omega
            simp [disk_set, this]
    · rw [if_neg hx] at h
      simp only [Option.some.injEq] at h
      rw [h]

theorem fs_truncate_disk0 (c : Config) (fuel : Nat) (s s2 : Volume) (fd : Int) (length : Nat)
    (r : Int) (h : fs_truncate c fuel s fd length = some (r, s2)) : s2.disk 0 = s.disk 0 := by
  unfold fs_truncate at h
  simp only [Option.bind_eq_bind] at h
  cases hf : get_file c s.open_fildes fd with
  | none => simp [hf] at h
  | some f =>
    cases f with
    | none =>
      simp only [hf, Option.some_bind, Option.some.injEq, Prod.mk.injEq] at h
      rw [← h.2]
    | some file =>
      simp only [hf, Option.some_bind] at h
      cases hsz : fs_get_filesize c fuel s fd with
      | none => simp [hsz] at h
      | some flen =>
        simp only [hsz, Option.some_bind] at h
        split_ifs at h with hlt
        · simp only [Option.some.injEq, Prod.mk.injEq] at h
          rw [← h.2]
        · cases hl : fs_lseek c s fd length with
          | none => simp [hl] at h
          | some x =>
            obtain ⟨r1, s1⟩ := x
            have hd1 := fs_lseek_disk c s s1 fd length r1 hl
            simp only [hl, Option.some_bind] at h
            cases hf1 : get_file c s1.open_fildes fd with
            | none => simp [hf1] at h
            | some f1 =>
              cases f1 with
              | none => simp [hf1] at h
              | some file1 =>
                simp only [hf1, Option.some_bind] at h
                cases ht : fs_truncate_loop c fuel s1.disk file1.blk_num file1.blk_num with
                | none => simp [ht] at h
                | some d =>
                  simp only [ht, Option.some_bind, Option.some.injEq, Prod.mk.injEq] at h
                  rw [← h.2]
                  show d 0 = s.disk 0
                  rw [fs_truncate_loop_disk0 c fuel s1.disk d _ ht, hd1]

/-- The outcomes of `fs_delete`: an error with the state as it was, or 0 with
the directory block rewritten by the token loop. -/
theorem fs_delete_cases (c : Config) (fuel : Nat) (s s2 : Volume) (name : List Nat) (r : Int)
    (h : fs_delete c fuel s name = some (r, s2)) :
    (r = c.ALREADY_OPEN ∧ s2 = s) ∨ (r < 0 ∧ s2 = s) ∨
    (r = 0 ∧ 0 < c.DISK_BLOCKS ∧ ∃ buff2,
      fs_delete_scan c (cstr name) ((s.disk 0).length + 1) [] (s.disk 0) = some buff2 ∧
      buff2.length < c.BLOCK_SIZE ∧ s2.disk 0 = buff2) := by
  unfold fs_delete at h
  by_cases h1 : is_open c s.open_fildes name = 1
  · rw [if_pos h1] at h
    simp only [Option.some.injEq, Prod.mk.injEq] at h
    exact Or.inl ⟨h.1.symm, h.2.symm⟩
  rw [if_neg h1] at h
  simp only [Option.bind_eq_bind] at h
  cases hg : get_head c s.disk name with
  | none => simp [hg] at h
  | some curr =>
    simp only [hg, Option.some_bind] at h
    by_cases h2 : curr < 0
    · rw [if_pos h2] at h
      simp only [Option.some.injEq, Prod.mk.injEq] at h
      exact Or.inr (Or.inl ⟨by omega, h.2.symm⟩)
    rw [if_neg h2] at h
    cases ho : fs_open c s name with
    | none => simp [ho] at h
    | some x =>
      obtain ⟨fd, s1⟩ := x
      have hd1 := fs_open_disk c s s1 name fd ho
      simp only [ho, Option.some_bind] at h
      cases ht : fs_truncate c fuel s1 fd 0 with
      | none => simp [ht] at h
      | some y =>
        obtain ⟨r2, s3⟩ := y
        have hd3 := fs_truncate_disk0 c fuel s1 s3 fd 0 r2 ht
        rw [hd1] at hd3
        simp only [ht, Option.some_bind] at h
        cases hr : block_read c s3.disk 0 with
        | none => simp [hr] at h
        | some buff =>
          have hD : 0 < c.DISK_BLOCKS := by
            unfold block_read at hr
            split_ifs at hr with hh
            exact_mod_cast hh.2
          have hbuff : buff = s.disk 0 := by
            rw [show block_read c s3.disk 0 = some (s3.disk 0) by
              simpa using block_read_nat c s3.disk 0 hD] at hr
            rw [← Option.some.inj hr, hd3]
          subst hbuff
          simp only [hr, Option.some_bind] at h
          cases hs : fs_delete_scan c (cstr name) ((s.disk 0).length + 1) [] (s.disk 0) with
          | none => simp [hs] at h
          | some buff2 =>
            simp only [hs, Option.some_bind] at h
            cases hw : block_write c s3.disk 0 buff2 with
            | none => simp [hw] at h
            | some d =>
              simp only [hw, Option.some_bind, Option.some.injEq, Prod.mk.injEq] at h
              refine Or.inr (Or.inr ⟨h.1.symm, hD, buff2, rfl, ?_, ?_⟩)
              · unfold block_write at hw
                split_ifs at hw with hh
                exact hh.2.2
              · rw [← h.2]
                unfold block_write at hw
                split_ifs at hw with hh
                simp only [Option.some.injEq] at hw
                show d 0 = buff2
                rw [← hw]
                simp [disk_set]

theorem dir_text_app : ∀ (A B : List (Text × Nat)), dir_text (A ++ B) = dir_text A ++ dir_text B
  | [], B => by simp [dir_text]
  | a :: A, B => by
    show dir_entry a ++ dir_text (A ++ B) = dir_entry a ++ dir_text A ++ dir_text B
    rw [dir_text_app A B, List.append_assoc]

/-- Looking up a name that does not match the record `e` is the same with and
without `e`. -/
theorem dir_lookup_remove (c : Config) (fname : Text) (P S : List (Text × Nat))
    (e : Text × Nat) (hne : strncmp_eq fname e.1 c.FILENAME_SIZE = false) :
    dir_lookup c fname (P ++ S) = dir_lookup c fname (P ++ e :: S) := by
  unfold dir_lookup
  rw [List.find?_append, List.find?_append, List.find?_cons_of_neg _ (by simp [hne])]

theorem get_free_bl_some (c : Config) (disk : Disk) (b : Nat) (hNB : c.NO_BLOCKS < 0)
    (h : get_free_bl c disk = (b : Int)) : ∃ F, free_blocks c disk = b :: F := by
  rw [get_free_bl_eq] at h
  cases hF : free_blocks c disk with
  | nil => rw [hF] at h; simp only at h; omega
  | cons j F =>
    rw [hF] at h
    simp only at h
    exact ⟨F, by rw [show j = b by omega]⟩

/-- With the test of the directory's room in place `fs_create` always has a
result when the look-up of the name has one, and the directory text it leaves
fits its block: the text printed behind the test has at most `MAX_KV_SIZE - 1`
bytes more than the text read. -/
theorem fs_create_returns (c : Config) (hc : c.ok) (hFS : c.FILENAME_SIZE ≤ 15) (s : Volume)
    (name : List Nat) (hfit : (s.disk 0).length < c.BLOCK_SIZE)
    (hgh : get_head c s.disk name ≠ none) :
    ∃ r s2, fs_create c s name = some (r, s2) ∧ (s2.disk 0).length < c.BLOCK_SIZE := by
  by_cases h1 : strlen name > c.FILENAME_SIZE
  · exact ⟨c.NAME_TOO_LARGE, s, by unfold fs_create; rw [if_pos h1], hfit⟩
  cases hF : free_blocks c s.disk with
  | nil =>
    refine ⟨c.NO_BLOCKS, s, ?_, hfit⟩
    unfold fs_create
    rw [if_neg h1, get_free_bl_eq, hF]
    simp only
    rw [if_pos hc.2.2.2.2.2.2.2.2.2.1]
  | cons b F =>
    have hbmem : b ∈ free_blocks c s.disk := by simp [hF]
    obtain ⟨⟨hb1, hbD⟩, _⟩ := (mem_free_blocks c s.disk b).mp hbmem
    cases hg : get_head c s.disk name with
    | none => exact absurd hg hgh
    | some head =>
      by_cases h3 : head = c.NO_FILE
      · subst h3
        have hb10 : b < 10000 := by have := hc.2.1; omega
        have hent := dir_entry_length_le (cstr name) b (by unfold strlen at h1; omega) hb10
        have hnew := fs_create_new c s name b F (by omega) hF hg hfit
        by_cases h4 : c.BLOCK_SIZE - (s.disk 0).length ≤ MAX_KV_SIZE
        · rw [if_pos h4] at hnew
          exact ⟨_, _, hnew, hfit⟩
        · have h5 : (s.disk 0 ++ cstr name ++ [58] ++ fmt_ld b ++ [59]).length < c.BLOCK_SIZE := by
            simp only [List.length_append, List.length_singleton] at hent ⊢
            omega
          rw [if_neg h4, if_pos h5] at hnew
          refine ⟨_, _, hnew, ?_⟩
          have hb0 : (0 : Nat) ≠ b := by omega
          simp only [disk_set, hb0, if_false, if_true]
          exact h5
      · refine ⟨c.FILE_EXISTS, s, ?_, hfit⟩
        unfold fs_create
        rw [if_neg h1, get_free_bl_eq, hF]
        simp [hg, h3]

/-- On a well-formed volume `fs_delete` of an existing file that is not open
has the result 0 and leaves the directory without the record of the file. -/
theorem fs_delete_returns (c : Config) (hc : c.ok) (fuel : Nat) (s : Volume) (name : Text)
    (h : Nat) (P S : List (Text × Nat)) (bs : List Nat)
    (hdir : s.disk 0 = dir_text (P ++ (name, h) :: S))
    (hfit : (s.disk 0).length < c.BLOCK_SIZE)
    (hok : dir_ok c (P ++ (name, h) :: S))
    (hP : ∀ e ∈ P, e.1 ≠ name)
    (hclosed : is_open c s.open_fildes name = 0)
    (htable : s.open_fildes.num_open < c.MAX_DESC →
      ∃ i, i < c.MAX_DESC ∧ s.open_fildes.fds i = none)
    (hchain : Chain c s.disk (h : Int) (h :: bs)) (hfuel : bs.length + 1 < fuel) :
    ∃ s2, fs_delete c fuel s name = some (0, s2) ∧ s2.disk 0 = dir_text (P ++ S) := by
  have hh0 : 0 < h := hchain.2.1
  have hhD : h < c.DISK_BLOCKS := hchain.2.2.1
  have hD : 0 < c.DISK_BLOCKS := by omega
  have hokn : ∀ e ∈ P ++ (name, h) :: S, name_ok e.1 := fun e he => (hok e he).1
  have hname : name_ok name := (hok (name, h) (by simp)).1
  have hnlen : name.length ≤ c.FILENAME_SIZE := (hok (name, h) (by simp)).2
  have hcs : cstr name = name := cstr_name name (fun ch hch => (hname ch hch).1)
  have hlook : dir_lookup c name (P ++ (name, h) :: S) = some (h : Int) := by
    unfold dir_lookup
    have hPn : P.find? (fun e => strncmp_eq name e.1 c.FILENAME_SIZE) = none := by
      rw [List.find?_eq_none]
      intro e he hm
      exact hP e he ((strncmp_eq_iff name e.1 _ hnlen (hok e (by simp [he])).2).mp
        (by simpa using hm)).symm
    rw [List.find?_append, hPn]
    have hself : strncmp_eq name name c.FILENAME_SIZE = true := by simp [strncmp_eq]
    simp only [Option.none_or, List.find?, hself]
    exact atoi_fmt_ld_some h (by have := hc.2.1; omega)
  have hgh : get_head c s.disk name = some (h : Int) := by
    rw [get_head_dir c s.disk name _ hD hdir hokn, hcs, hlook]
  have hlen : name.length < c.BLOCK_SIZE := by
    rw [hdir, dir_text_app] at hfit
    simp only [dir_text, dir_entry, List.length_append, List.length_singleton] at hfit
    omega
  have hfuel2 : P.length < (s.disk 0).length + 1 := by
    have := dir_text_length_ge (P ++ (name, h) :: S)
    rw [hdir]
    simp only [List.length_append, List.length_cons] at this
    omega
  have hscan := fs_delete_scan_dir c name h S hname hlen P [] ((s.disk 0).length + 1)
    (fun e he => ⟨hokn e (by simp [he]), hP e he⟩) hfuel2
  rw [← hdir, List.nil_append, ← dir_text_app] at hscan
  have hshort : (dir_text (P ++ S)).length < c.BLOCK_SIZE := by
    have := fs_delete_scan_length c name _ [] (s.disk 0) _ hscan
    simp only [List.length_nil, Nat.zero_add] at this
    omega
  have hsteps : ∃ fd s1 r s2, fs_open c s name = some (fd, s1) ∧
      fs_truncate c fuel s1 fd 0 = some (r, s2) := by
    have hno : ¬ is_open c s.open_fildes name = 1 := by rw [hclosed]; decide
    by_cases hfull : s.open_fildes.num_open ≥ c.MAX_DESC
    · refine ⟨c.VERY_DESCRIPTION, s, c.BAD_FILDES, s, ?_, ?_⟩
      · unfold fs_open
        rw [if_neg hno, if_pos hfull]
      · have hVD : c.VERY_DESCRIPTION < 0 := hc.2.2.2.1
        simp [fs_truncate, get_file, hVD]
    · obtain ⟨i, hi, hnone⟩ := htable (by omega)
      cases hf : (List.range c.MAX_DESC).find? (fun fd => (s.open_fildes.fds fd).isNone) with
      | none =>
        rw [List.find?_eq_none] at hf
        have := hf i (List.mem_range.mpr hi)
        simp [hnone] at this
      | some slot =>
        have ho : fs_open c s name = some ((slot : Int),
            { disk := s.disk,
              open_fildes :=
                { fds := fun i => if i = slot then
                    some { fname := (cstr name).take c.FILENAME_SIZE, blk_num := (h : Int),
                           blk_off := 0 }
                    else s.open_fildes.fds i,
                  num_open := s.open_fildes.num_open + 1 } }) := by
          unfold fs_open
          rw [if_neg hno, if_neg hfull]
          simp only [hf, hgh, Option.bind_eq_bind, Option.some_bind]
        obtain ⟨head, hhead, hdisk1, hfile1⟩ :=
          fs_open_success c hc s _ name (slot : Int) ho (Int.natCast_nonneg _)
        have htk : (cstr name).take c.FILENAME_SIZE = name := by
          rw [hcs]; exact List.take_of_length_le hnlen
        rw [hgh] at hhead
        have hhd : head = (h : Int) := (Option.some.inj hhead).symm
        subst hhd
        have ht := fs_truncate_zero c hc fuel _ (slot : Int) _ (h : Int) (h :: bs) hfile1
          (by simp only [htk]; exact hgh) hchain (by simpa using hfuel)
        exact ⟨_, _, _, _, ho, ht⟩
  obtain ⟨fd, s1, r, s2, ho, ht⟩ := hsteps
  have hd1 := fs_open_disk c s s1 name fd ho
  have hd2 := fs_truncate_disk0 c fuel s1 s2 fd 0 r ht
  rw [hd1] at hd2
  have hrd : block_read c s2.disk 0 = some (s.disk 0) := by
    have := block_read_nat c s2.disk 0 hD
    simpa [hd2] using this
  have hw := block_write_nat c s2.disk 0 (dir_text (P ++ S)) hD hshort
  simp only [Nat.cast_zero] at hw
  refine ⟨{ s2 with disk := disk_set s2.disk 0 (dir_text (P ++ S)) }, ?_, by simp [disk_set]⟩
  unfold fs_delete
  rw [if_neg (by rw [hclosed]; decide)]
  simp only [Option.bind_eq_bind, hgh, Option.some_bind]
  rw [if_neg (by omega)]
  simp only [ho, Option.some_bind, ht, hrd, hcs, hscan, hw]

/-! ### A volume without a free block -/

theorem free_blocks_no_free : free_blocks specConfig vol_no_free.disk = [] := by
  unfold free_blocks
  rw [List.filter_eq_nil_iff]
  intro i hi
  have hi0 : i ≠ 0 := by
    have := (List.mem_range'_1.mp hi).1
    omega
  simp only [vol_no_free, hi0, if_false]
  decide

theorem fs_create_no_free (name : List Nat) (h : strlen name ≤ specConfig.FILENAME_SIZE) :
    fs_create specConfig vol_no_free name = some (specConfig.NO_BLOCKS, vol_no_free) := by
  unfold fs_create
  rw [if_neg (by omega), get_free_bl_eq, free_blocks_no_free]
  rfl

/-! ## The claims -/

set_option maxRecDepth 100000

/-- Claim C1 (write/read round trip within one block).  On a volume whose
directory is the text of well-formed records, let `fs_create(name)` return 0
and `fs_open(name)` return a descriptor `fd`.  For every NUL-free `d` shorter
than the payload capacity of a block, `fs_write(fd, d, |d|)` returns `|d|`,
`fs_lseek(fd, 0)` returns 0 and `fs_read(fd, buf, |d|)` returns `|d|` and
leaves the bytes of `d` at the start of `buf` (the rest of `buf` is as it
was). -/
theorem C1_write_read_round_trip (c : Config) (hc : c.ok) (fuel : Nat) (s s1 s2 : Volume)
    (name : Text) (es : List (Text × Nat)) (fd : Int) (d buf : List Nat)
    (hdir : s.disk 0 = dir_text es) (hok : ∀ e ∈ es, name_ok e.1) (hname : name_ok name)
    (hcreate : fs_create c s name = some (0, s1))
    (hopen : fs_open c s1 name = some (fd, s2)) (hfd : 0 ≤ fd)
    (hd : ∀ ch ∈ d, ch ≠ 0) (hlen : d.length < c.BLOCK_SIZE - BLK_META_SIZE)
    (hbuf : d.length ≤ buf.length) :
    ∃ s3 s4 s5, fs_write c s2 fd d d.length = some ((d.length : Int), s3) ∧
      fs_lseek c s3 fd 0 = some (0, s4) ∧
      fs_read c fuel s4 fd buf d.length = some ((d.length : Int), d ++ buf.drop d.length, s5) := by
  have h5 : BLK_META_SIZE = 5 := rfl
  obtain ⟨b, F, hF, hnlen, hnew, rfl⟩ := fs_create_success c hc s s1 name es hname hdir hok hcreate
  have hbmem : b ∈ free_blocks c s.disk := by simp [hF]
  obtain ⟨⟨hb1, hbD⟩, _⟩ := (mem_free_blocks c s.disk b).mp hbmem
  have hcs : cstr name = name := cstr_name name (fun ch hch => (hname ch hch).1)
  obtain ⟨head, hhead, hdisk2, hfile2⟩ := fs_open_success c hc _ s2 name fd hopen hfd
  simp only at hhead
  have hok2 : ∀ e ∈ es ++ [(name, b)], name_ok e.1 := by
    intro e he
    rcases List.mem_append.mp he with he | he
    · exact hok e he
    · simp only [List.mem_singleton] at he
      subst he
      exact hname
  have hD0 : (disk_set (disk_set s.disk 0 (dir_text (es ++ [(name, b)]))) b [48, 48, 48, 48]) 0 =
      dir_text (es ++ [(name, b)]) := by
    have : (0 : Nat) ≠ b := by omega
    simp [disk_set, this]
  have hDb : (disk_set (disk_set s.disk 0 (dir_text (es ++ [(name, b)]))) b [48, 48, 48, 48]) b =
      [48, 48, 48, 48] := by
    simp [disk_set]
  have hlook : dir_lookup c name (es ++ [(name, b)]) = some (b : Int) :=
    dir_lookup_append c hc.2.2.2.2.2.2.2.2.1 name name b es (by simp [strncmp_eq])
      (by have := hc.2.1; omega) hnew
  have hgh := get_head_dir c _ name (es ++ [(name, b)]) (by omega) hD0 hok2
  rw [hcs, hlook] at hgh
  rw [hgh] at hhead
  have hhd : head = (b : Int) := (Option.some.inj hhead).symm
  subst hhd
  have htk : (cstr name).take c.FILENAME_SIZE = name := by
    rw [hcs]; exact List.take_of_length_le hnlen
  rw [htk] at hfile2
  have hDb2 : s2.disk b = [48, 48, 48, 48] := by rw [hdisk2]; exact hDb
  obtain ⟨disk3, file3, hw, _, _, hframe, hk0, hnil, hoff3, hname3, _⟩ :=
    fs_write_spec c hc s2 fd _ b d 0 hfile2 rfl (by omega) hbD (by simp only; omega)
      (by rw [hDb2]; simp) (by rw [hDb2]; decide) hd
      (by simp only [Nat.zero_add]; exact (Nat.div_eq_of_lt hlen).symm) (Nat.zero_le _)
  simp only [Nat.zero_add] at hoff3 hk0
  have hd3b : disk3 b = [48, 48, 48, 48] ++ d := by
    by_cases hdn : d = []
    · rw [hnil hdn, hDb2, hdn]; rfl
    · rw [hk0 trivial hdn, hDb2]
      simp [disk_set, BLK_META_SIZE]
  have hd30 : disk3 0 = s2.disk 0 := hframe 0 (by omega) (by simp)
  have hfile3 := get_file_put c s2 disk3 fd _ file3 hfile2
  have hgh3 : get_head c (s2.put disk3 fd.toNat file3).disk file3.fname = some (b : Int) := by
    show get_head c disk3 file3.fname = some (b : Int)
    rw [get_head_congr c s2.disk _ _ hd30, hname3, hdisk2]
    exact hgh
  have hseek := fs_lseek_zero c _ fd file3 (b : Int) hfile3 hgh3
  have hfile4 := get_file_put c (s2.put disk3 fd.toNat file3)
    (s2.put disk3 fd.toNat file3).disk fd file3 { file3 with blk_num := (b : Int), blk_off := 0 }
    hfile3
  have hread := fs_read_in_block c fuel _ fd _ b buf d.length hfile4 rfl hbD
    (by
      show 0 + BLK_META_SIZE - 1 + d.length ≤ (disk3 b).length
      rw [hd3b, List.length_append]
      simp only [List.length_cons, List.length_nil]
      omega)
    hbuf
  have hpay : (List.drop (0 + BLK_META_SIZE - 1) (disk3 b)).take d.length = d := by
    rw [hd3b]; simp [BLK_META_SIZE]
  simp only [Volume.put] at hread hpay
  rw [hpay] at hread
  exact ⟨_, _, _, hw, hseek, hread⟩

/-- Witness of C1: `hello world` written to `a.txt` on the fresh volume of the
spec is read back. -/
theorem C1_write_read_round_trip_witness :
    fs_create specConfig fresh a_txt = some (0, vol_created) ∧
    fs_open specConfig vol_created a_txt = some (0, vol_opened) ∧
    ∃ s3 s4 s5, fs_write specConfig vol_opened 0 hello hello.length = some ((hello.length : Int), s3) ∧
      fs_lseek specConfig s3 0 0 = some (0, s4) ∧
      fs_read specConfig 4 s4 0 (zeros 16) hello.length =
        some ((hello.length : Int), hello ++ (zeros 16).drop hello.length, s5) :=
  ⟨rfl, rfl,
    C1_write_read_round_trip specConfig (by decide) 4 fresh vol_created vol_opened a_txt [] 0
      hello (zeros 16) rfl (fun _ h => absurd h (List.not_mem_nil _)) (by decide) rfl rfl
      (by decide) (by decide) (by decide) (by decide)⟩

/-- Claim C2 as stated fails: after `fs_create("a.txt")`, `fs_open("a.txt")` and
`fs_write(fd, "hello world", 11)` on the fresh volume, the next
`fs_read(fd, buf, 11)` returns 0 and leaves `buf` untouched, because the
handle stands behind the bytes just written. -/
theorem C2_read_without_seek_returns_zero :
    fs_create specConfig fresh a_txt = some (0, vol_created) ∧
    fs_open specConfig vol_created a_txt = some (0, vol_opened) ∧
    fs_write specConfig vol_opened 0 hello 11 = some (11, vol_hello) ∧
    vol_hello.open_fildes.fds 0 = some { fname := a_txt, blk_num := 1, blk_off := 11 } ∧
    outcome (fs_read specConfig 4 vol_hello 0 (zeros 11) 11) = some (0, zeros 11) ∧
    outcome (fs_read specConfig 4 vol_hello 0 (zeros 11) 11) ≠ some (11, hello) :=
  ⟨rfl, rfl, rfl, by decide, by decide, by decide⟩

/-- Claim C2, amended: in the same scenario, once `fs_lseek(fd, 0)` has put the
handle back at the start of the file, `fs_read(fd, buf, 11)` returns 11 and
produces the bytes `hello world`. -/
theorem C2_read_after_seek_returns_hello :
    fs_create specConfig fresh a_txt = some (0, vol_created) ∧
    fs_open specConfig vol_created a_txt = some (0, vol_opened) ∧
    fs_write specConfig vol_opened 0 hello 11 = some (11, vol_hello) ∧
    code (fs_lseek specConfig vol_hello 0 0) = some 0 ∧
    outcome (fs_read specConfig 4 (after (fs_lseek specConfig vol_hello 0 0)) 0 (zeros 11) 11) =
      some (11, hello) :=
  ⟨rfl, rfl, rfl, by decide, by decide⟩

/-- Claim C3 at a failing input.  The file holds two blocks (`data130` was
written), the handle is on the first block at offset 1.  A read of 124 bytes
returns 124, but the bytes taken from the second block start at its offset 1
(`BCD`) where the contract names its first payload byte (`ABC`): the loop of
`fs_read` applies `blk_off` to every block. -/
theorem C3_read_skips_into_next_block :
    fs_write specConfig vol_opened 0 data130 130 = some (130, vol_two) ∧
    Chain specConfig vol_two.disk 1 [1, 2] ∧
    vol_two.disk 2 = bytes "0000ABCDEFG" ∧
    code (fs_lseek specConfig vol_two 0 1) = some 0 ∧
    (after (fs_lseek specConfig vol_two 0 1)).open_fildes.fds 0 =
      some { fname := a_txt, blk_num := 1, blk_off := 1 } ∧
    outcome (fs_read specConfig 4 (after (fs_lseek specConfig vol_two 0 1)) 0 (zeros 128) 124) =
      some (124, List.replicate 121 120 ++ bytes "BCD" ++ zeros 4) ∧
    read_contract specConfig (after (fs_lseek specConfig vol_two 0 1)).disk 4 1 1 124 =
      List.replicate 121 120 ++ bytes "ABC" :=
  ⟨rfl, by decide, by decide, by decide, by decide, by decide, by decide⟩

/-- Claim C4 at a failing input.  `fs_write(fd, "abcdef", 2)` on the new file
returns 6 and stores all six bytes: each iteration copies
`min(block_space, strlen(buf))` bytes, whatever `nbyte` is. -/
theorem C4_write_exceeds_count :
    code (fs_write specConfig vol_opened 0 (bytes "abcdef") 2) = some 6 ∧
    (after (fs_write specConfig vol_opened 0 (bytes "abcdef") 2)).disk 1 = bytes "0000abcdef" ∧
    (after (fs_write specConfig vol_opened 0 (bytes "abcdef") 2)).open_fildes.fds 0 =
      some { fname := a_txt, blk_num := 1, blk_off := 6 } :=
  ⟨by decide, by decide, by decide⟩

/-- Claim C5 (write-induced growth).  The handle is on the last block `b` of
its file, at an offset below the capacity, and `b` holds its four byte prefix.
Writing the NUL-free `d` with `k = (off + |d|) / capacity` free blocks at hand
returns `|d|`, takes exactly the first `k` free blocks (the free blocks
afterwards are the old ones without their first `k`), appends them to the
chain in that order, leaves the handle at offset `(off + |d|) % capacity`, and
`fs_get_filesize` grows by `k * BLOCK_SIZE`.  A block is taken exactly when the
offset reaches the capacity. -/
theorem C5_write_grows_chain (c : Config) (hc : c.ok) (fuel : Nat) (s : Volume) (fd : Int)
    (file : fildes) (head : Int) (pre : List Nat) (b : Nat) (d : List Nat)
    (hfile : get_file c s.open_fildes fd = some (some file))
    (hhead : get_head c s.disk file.fname = some head)
    (hchain : Chain c s.disk head (pre ++ [b]))
    (hblk : file.blk_num = (b : Int)) (hoff : file.blk_off < c.capacity)
    (h4 : 4 ≤ (s.disk b).length)
    (hd : ∀ ch ∈ d, ch ≠ 0)
    (hfree : (file.blk_off + d.length) / c.capacity ≤ (free_blocks c s.disk).length)
    (hfuel : pre.length + 1 + (file.blk_off + d.length) / c.capacity < fuel) :
    ∃ s2 file2, fs_write c s fd d d.length = some ((d.length : Int), s2) ∧
      free_blocks c s2.disk =
        (free_blocks c s.disk).drop ((file.blk_off + d.length) / c.capacity) ∧
      Chain c s2.disk head
        (pre ++ [b] ++ (free_blocks c s.disk).take ((file.blk_off + d.length) / c.capacity)) ∧
      ((free_blocks c s.disk).take ((file.blk_off + d.length) / c.capacity)).length =
        (file.blk_off + d.length) / c.capacity ∧
      get_file c s2.open_fildes fd = some (some file2) ∧
      file2.blk_off = (file.blk_off + d.length) % c.capacity ∧
      fs_get_filesize c fuel s fd = some ((((pre.length + 1) * c.BLOCK_SIZE : Nat)) : Int) ∧
      fs_get_filesize c fuel s2 fd =
        some ((((pre.length + 1 + (file.blk_off + d.length) / c.capacity) * c.BLOCK_SIZE : Nat))
          : Int) := by
  unfold Config.capacity at *
  obtain ⟨_, hb0, hbD, hnext⟩ := chain_suffix c s.disk pre b [] head hchain
  simp only [Chain] at hnext
  obtain ⟨disk2, file2, hw, hfree2, hchain2, hframe, _, _, hoff2, hname2, _⟩ :=
    fs_write_spec c hc s fd file b d _ hfile hblk hb0 hbD hoff h4 hnext hd rfl hfree
  have hnd := chain_nodup c s.disk _ head hchain
  have hpre : ∀ x ∈ pre, disk2 x = s.disk x := by
    intro x hx
    apply hframe
    · rintro rfl
      have := List.nodup_append.mp hnd
      exact this.2.2 hx (by simp)
    · intro hmem
      have hxf := ((mem_free_blocks c s.disk x).mp (List.mem_of_mem_take hmem)).2
      exact chain_mem_not_free c s.disk _ head x hchain (by simp [hx]) hxf
  have hchain3 := chain_replace_suffix c s.disk disk2 pre b [] _ head hchain hpre hchain2
  have hd0 : disk2 0 = s.disk 0 := by
    apply hframe 0 (by omega)
    intro hmem
    have := ((mem_free_blocks c s.disk 0).mp (List.mem_of_mem_take hmem)).1.1
    omega
  have hfile2 := get_file_put c s disk2 fd file file2 hfile
  have hhead2 : get_head c (s.put disk2 fd.toNat file2).disk file2.fname = some head := by
    show get_head c disk2 file2.fname = some head
    rw [get_head_congr c s.disk _ _ hd0, hname2]
    exact hhead
  have hlen : ((free_blocks c s.disk).take
      ((file.blk_off + d.length) / (c.BLOCK_SIZE - BLK_META_SIZE))).length =
      (file.blk_off + d.length) / (c.BLOCK_SIZE - BLK_META_SIZE) := by
    rw [List.length_take]; omega
  have hsz1 := fs_get_filesize_chain c fuel s fd file head _ hfile hhead hchain
    (by simp only [List.length_append, List.length_singleton]; omega)
  have hsz2 := fs_get_filesize_chain c fuel (s.put disk2 fd.toNat file2) fd file2 head _ hfile2
    hhead2 hchain3
    (by simp only [List.length_append, List.length_cons, hlen]; omega)
  refine ⟨s.put disk2 fd.toNat file2, file2, hw, hfree2, ?_, hlen, hfile2, hoff2, ?_, ?_⟩
  · simpa using hchain3
  · simpa using hsz1
  · rw [hsz2]
    simp only [List.length_append, List.length_cons, hlen]
    rw [Nat.add_assoc, Nat.add_comm _ 1]

/-- Witness of C5: 250 bytes written at offset 0 of a new file on the volume
of the spec take two more blocks. -/
theorem C5_write_grows_chain_witness :
    (0 + data250.length) / specConfig.capacity = 2 ∧
    ∃ s2 file2, fs_write specConfig vol_opened 0 data250 data250.length =
        some ((data250.length : Int), s2) ∧
      free_blocks specConfig s2.disk =
        (free_blocks specConfig vol_opened.disk).drop
          ((0 + data250.length) / specConfig.capacity) ∧
      Chain specConfig s2.disk 1
        ([] ++ [1] ++ (free_blocks specConfig vol_opened.disk).take
          ((0 + data250.length) / specConfig.capacity)) ∧
      ((free_blocks specConfig vol_opened.disk).take
        ((0 + data250.length) / specConfig.capacity)).length =
        (0 + data250.length) / specConfig.capacity ∧
      get_file specConfig s2.open_fildes 0 = some (some file2) ∧
      file2.blk_off = (0 + data250.length) % specConfig.capacity ∧
      fs_get_filesize specConfig 8 vol_opened 0 =
        some ((((([] : List Nat).length + 1) * specConfig.BLOCK_SIZE : Nat)) : Int) ∧
      fs_get_filesize specConfig 8 s2 0 =
        some ((((([] : List Nat).length + 1 + (0 + data250.length) / specConfig.capacity) *
          specConfig.BLOCK_SIZE : Nat)) : Int) :=
  ⟨by decide,
    C5_write_grows_chain specConfig (by decide) 8 vol_opened 0
      { fname := a_txt, blk_num := 1, blk_off := 0 } 1 [] 1 data250 (by decide) (by decide)
      (by decide) rfl (by decide) (by decide) (by decide)
      (le_trans (by decide : (0 + data250.length) / specConfig.capacity ≤ [2, 3].length)
        (List.Subperm.length_le (List.subperm_of_subset (by decide)
          (fun x hx => (mem_free_blocks specConfig vol_opened.disk x).mpr (by
            simp only [List.mem_cons, List.mem_singleton, List.not_mem_nil, or_false] at hx
            rcases hx with rfl | rfl <;> decide)))))
      (by decide)⟩

/-- Claim C6 (size is block-granular).  For an open descriptor whose file has
the chain `bs` from its directory head, `fs_get_filesize` returns
`|bs| * BLOCK_SIZE`, given one unit of fuel per block and one more. -/
theorem C6_filesize_is_chain_length_times_block (c : Config) (fuel : Nat) (s : Volume)
    (fd : Int) (file : fildes) (head : Int) (bs : List Nat)
    (hfile : get_file c s.open_fildes fd = some (some file))
    (hhead : get_head c s.disk file.fname = some head)
    (hchain : Chain c s.disk head bs)
    (hfuel : bs.length < fuel) :
    fs_get_filesize c fuel s fd = some ((bs.length * c.BLOCK_SIZE : Nat) : Int) :=
  fs_get_filesize_chain c fuel s fd file head bs hfile hhead hchain hfuel

/-- Witness of C6: the file holding `hello world` on the volume of the spec,
and the file just created, have size 128. -/
theorem C6_filesize_witness :
    (Chain specConfig vol_hello.disk 1 [1] ∧
      fs_get_filesize specConfig 4 vol_hello 0 = some 128) ∧
    (Chain specConfig vol_opened.disk 1 [1] ∧
      fs_get_filesize specConfig 4 vol_opened 0 = some 128) :=
  ⟨⟨by decide,
    C6_filesize_is_chain_length_times_block specConfig 4 vol_hello 0
      { fname := a_txt, blk_num := 1, blk_off := 11 } 1 [1] (by decide) (by decide) (by decide)
      (by decide)⟩,
   ⟨by decide,
    C6_filesize_is_chain_length_times_block specConfig 4 vol_opened 0
      { fname := a_txt, blk_num := 1, blk_off := 0 } 1 [1] (by decide) (by decide) (by decide)
      (by decide)⟩⟩

/-- Claim C7 at a failing input.  The file has the chain `[1, 2, 3]` and the
offset is 256, so the target block index is 2 whether one divides by the
payload capacity 123 or by `BLOCK_SIZE` 128.  `fs_lseek` returns 0 but leaves
the handle on block 2, one step from the head, at offset 0: its loop asks for
the successor of the head at every iteration, and it divides by
`BLOCK_SIZE`. -/
theorem C7_seek_stops_on_second_block :
    fs_write specConfig vol_opened 0 data250 250 = some (250, vol_three) ∧
    Chain specConfig vol_three.disk 1 [1, 2, 3] ∧
    256 / specConfig.capacity = 2 ∧ 256 % specConfig.capacity = 10 ∧
    256 / specConfig.BLOCK_SIZE = 2 ∧
    code (fs_lseek specConfig vol_three 0 256) = some 0 ∧
    (after (fs_lseek specConfig vol_three 0 256)).open_fildes.fds 0 =
      some { fname := a_txt, blk_num := 2, blk_off := 0 } :=
  ⟨rfl, by decide, by decide, by decide, by decide, by decide, by decide⟩

/-- Claim C8 at a failing input.  The file has the chain `[1, 2]` (two blocks)
and the offset 256 has target block index 2, yet `fs_lseek` returns 0 and not
`LSEEK_OUT_OF_BOUNDS`, leaving the handle on block 2. -/
theorem C8_seek_past_end_succeeds :
    Chain specConfig vol_two.disk 1 [1, 2] ∧
    256 / specConfig.BLOCK_SIZE = 2 ∧
    code (fs_lseek specConfig vol_two 0 256) = some 0 ∧
    code (fs_lseek specConfig vol_two 0 256) ≠ some specConfig.LSEEK_OUT_OF_BOUNDS ∧
    (after (fs_lseek specConfig vol_two 0 256)).open_fildes.fds 0 =
      some { fname := a_txt, blk_num := 2, blk_off := 0 } :=
  ⟨by decide, by decide, by decide, by decide, by decide⟩

/-- Claim C9 at a failing input.  The file holding `hello world` has size 128.
`fs_truncate(fd, 128)` returns 0 and overwrites the file's only block with the
free marker: the test is `length > flen`, and the failure of the seek to 128
is not looked at. -/
theorem C9_truncate_to_size_frees_block :
    fs_get_filesize specConfig 4 vol_hello 0 = some 128 ∧
    vol_hello.disk 1 = bytes "0000hello world" ∧
    code (fs_lseek specConfig vol_hello 0 128) = some specConfig.LSEEK_OUT_OF_BOUNDS ∧
    code (fs_truncate specConfig 4 vol_hello 0 128) = some 0 ∧
    (after (fs_truncate specConfig 4 vol_hello 0 128)).disk 1 = FREESTR ∧
    get_free_bl specConfig (after (fs_truncate specConfig 4 vol_hello 0 128)).disk = 1 :=
  ⟨by decide, by decide, by decide, by decide, by decide, by decide⟩

/-- Claim C10 (truncate to zero empties the file).  For an open descriptor
whose file has a non-empty chain from its directory head, `fs_truncate(fd, 0)`
returns 0 and a following `fs_read(fd, buf, n)` returns 0 for every `n`,
leaving `buf` as it was. -/
theorem C10_truncate_zero_then_read (c : Config) (hc : c.ok) (fuel : Nat) (s : Volume) (fd : Int)
    (file : fildes) (head : Int) (bs : List Nat) (buf : List Nat) (n : Nat)
    (hfile : get_file c s.open_fildes fd = some (some file))
    (hhead : get_head c s.disk file.fname = some head)
    (hchain : Chain c s.disk head bs) (hne : bs ≠ [])
    (hfuel : bs.length < fuel) :
    ∃ s1 s2, fs_truncate c fuel s fd 0 = some (0, s1) ∧
      fs_read c fuel s1 fd buf n = some (0, buf, s2) := by
  obtain ⟨b, rest, rfl⟩ := List.exists_cons_of_ne_nil hne
  obtain ⟨h0, h1, _⟩ := get_file_some c _ fd file hfile
  rw [fs_truncate_zero c hc fuel s fd file head (b :: rest) hfile hhead hchain hfuel]
  obtain ⟨s2, hs2⟩ := fs_read_free_block c fuel
    { disk := fun i => if i ∈ b :: rest then FREESTR else s.disk i,
      open_fildes := s.open_fildes.set fd.toNat
        (some { file with blk_num := head, blk_off := 0 }) }
    fd { file with blk_num := head, blk_off := 0 } b buf n ⟨h0, h1⟩
    (by simp [fildes_table.set]) hchain.1 rfl hchain.2.2.1 (by simp) (by omega)
  exact ⟨_, s2, rfl, hs2⟩

/-- Witness of C10: the three block file on the volume of the spec. -/
theorem C10_truncate_zero_then_read_witness :
    Chain specConfig vol_three.disk 1 [1, 2, 3] ∧
    ∃ s1 s2, fs_truncate specConfig 8 vol_three 0 0 = some (0, s1) ∧
      fs_read specConfig 8 s1 0 (zeros 16) 10 = some (0, zeros 16, s2) :=
  ⟨by decide,
    C10_truncate_zero_then_read specConfig (by decide) 8 vol_three 0
      { fname := a_txt, blk_num := 3, blk_off := 4 } 1 [1, 2, 3] (zeros 16) 10 (by decide)
      (by decide) (by decide) (by decide) (by decide)⟩

/-- Claim C11 at a failing input.  Every slot of the open-file table is taken
(by handles of other names), `a.txt` exists with the chain `[1]` and is not
open.  `fs_delete("a.txt")` returns 0 and removes the directory record, but
block 1 still holds `0000`: `fs_open` fails with `VERY_DESCRIPTION`,
`fs_truncate` gets that negative descriptor and frees nothing, and neither
result is looked at.  The next `fs_create("b.txt")` records block 2, not the
block `a.txt` had. -/
theorem C11_delete_with_full_table_keeps_blocks :
    vol_table_full.open_fildes.num_open = 32 ∧
    is_open specConfig vol_table_full.open_fildes a_txt = 0 ∧
    fs_create specConfig vol_table_full a_txt = some (0, vol_table_full_created) ∧
    get_head specConfig vol_table_full_created.disk a_txt = some 1 ∧
    Chain specConfig vol_table_full_created.disk 1 [1] ∧
    code (fs_open specConfig vol_table_full_created a_txt) = some specConfig.VERY_DESCRIPTION ∧
    fs_delete specConfig 8 vol_table_full_created a_txt = some (0, vol_table_full_deleted) ∧
    vol_table_full_deleted.disk 0 = [] ∧
    vol_table_full_deleted.disk 1 = bytes "0000" ∧
    get_free_bl specConfig vol_table_full_deleted.disk = 2 ∧
    code (fs_create specConfig vol_table_full_deleted b_txt) = some 0 ∧
    (after (fs_create specConfig vol_table_full_deleted b_txt)).disk 0 = bytes "b.txt:2;" :=
  ⟨by decide, by decide, rfl, by decide, by decide, by decide, rfl, by decide, by decide,
    by decide, by decide, by decide⟩

/-- Claim C12 at a failing input.  `a.txt` is the only file and no file is open.
`fs_delete("a.txt")` returns 0 and leaves its internal handle in slot 0 with
`num_open` 1: `fs_close` is never called.  After `fs_create("a.txt")` the call
`fs_open("a.txt")` returns `ALREADY_OPEN`. -/
theorem C12_delete_leaves_handle_open :
    (∀ i, i < 32 → vol_created.open_fildes.fds i = none) ∧
    vol_created.open_fildes.num_open = 0 ∧
    fs_delete specConfig 8 vol_created a_txt = some (0, vol_deleted) ∧
    vol_deleted.open_fildes.fds 0 = some { fname := a_txt, blk_num := 1, blk_off := 0 } ∧
    vol_deleted.open_fildes.num_open = 1 ∧
    is_open specConfig vol_deleted.open_fildes a_txt = 1 ∧
    code (fs_create specConfig vol_deleted a_txt) = some 0 ∧
    code (fs_open specConfig (after (fs_create specConfig vol_deleted a_txt)) a_txt) =
      some specConfig.ALREADY_OPEN :=
  ⟨by decide, by decide, rfl, by decide, by decide, by decide, by decide, by decide⟩

/-- Claim C13 (directory removal excises exactly one entry).  The directory is
the text of the records `P`, then the record of `name`, then the records `S`;
it fits its block, no name holds a NUL, `:` or `;`, and no record of `P` has
the name `name`.  If `fs_delete(name)` returns 0, the directory text is that
of `P` followed by `S`, and `get_head` gives what it gave before for every
name that differs from `name` within `FILENAME_SIZE` bytes (for names of at
most `FILENAME_SIZE` bytes: for every other name). -/
theorem C13_delete_excises_one_entry (c : Config) (hc : c.ok) (fuel : Nat) (s s2 : Volume)
    (name : Text) (h : Nat) (P S : List (Text × Nat))
    (hdir : s.disk 0 = dir_text (P ++ (name, h) :: S))
    (hfit : (s.disk 0).length < c.BLOCK_SIZE)
    (hok : ∀ e ∈ P ++ (name, h) :: S, name_ok e.1)
    (hP : ∀ e ∈ P, e.1 ≠ name)
    (hdel : fs_delete c fuel s name = some (0, s2)) :
    s2.disk 0 = dir_text (P ++ S) ∧
      ∀ fname : List Nat,
        (cstr fname).take c.FILENAME_SIZE ≠ name.take c.FILENAME_SIZE →
        get_head c s2.disk fname = get_head c s.disk fname := by
  have hname : name_ok name := hok (name, h) (by simp)
  have hcs : cstr name = name := cstr_name name (fun ch hch => (hname ch hch).1)
  have hAO : c.ALREADY_OPEN < 0 := hc.2.2.1
  have hlen : name.length < c.BLOCK_SIZE := by
    rw [hdir, dir_text_app] at hfit
    simp only [dir_text, dir_entry, List.length_append, List.length_singleton] at hfit
    omega
  have hfuel : P.length < (s.disk 0).length + 1 := by
    have := dir_text_length_ge (P ++ (name, h) :: S)
    rw [hdir]
    simp only [List.length_append, List.length_cons] at this
    omega
  have hscan := fs_delete_scan_dir c name h S hname hlen P [] ((s.disk 0).length + 1)
    (fun e he => ⟨hok e (by simp [he]), hP e he⟩) hfuel
  rw [← hdir, List.nil_append, ← dir_text_app] at hscan
  rcases fs_delete_cases c fuel s s2 name 0 hdel with ⟨h0, _⟩ | ⟨h0, _⟩ | ⟨_, hD, buff2, hb2, _, hd0⟩
  · omega
  · omega
  · rw [hcs, hscan] at hb2
    have hbuff : buff2 = dir_text (P ++ S) := (Option.some.inj hb2).symm
    subst hbuff
    refine ⟨hd0, ?_⟩
    intro fname hne
    have hok2 : ∀ e ∈ P ++ S, name_ok e.1 := by
      intro e he
      rcases List.mem_append.mp he with he | he
      · exact hok e (by simp [he])
      · exact hok e (by simp [he])
    rw [get_head_dir c s2.disk fname (P ++ S) hD hd0 hok2,
      get_head_dir c s.disk fname (P ++ (name, h) :: S) hD hdir hok,
      dir_lookup_remove c (cstr fname) P S (name, h) (by simpa [strncmp_eq] using hne)]

/-- Witness of C13: `b` is deleted from the directory `a:1;b:2;c:3;`. -/
theorem C13_delete_excises_one_entry_witness :
    vol_abc.disk 0 = bytes "a:1;b:2;c:3;" ∧
    fs_delete specConfig 8 vol_abc (bytes "b") =
      some (0, after (fs_delete specConfig 8 vol_abc (bytes "b"))) ∧
    (after (fs_delete specConfig 8 vol_abc (bytes "b"))).disk 0 =
      dir_text ([(bytes "a", 1)] ++ [(bytes "c", 3)]) ∧
    ∀ fname : List Nat,
      (cstr fname).take specConfig.FILENAME_SIZE ≠ (bytes "b").take specConfig.FILENAME_SIZE →
      get_head specConfig (after (fs_delete specConfig 8 vol_abc (bytes "b"))).disk fname =
        get_head specConfig vol_abc.disk fname :=
  ⟨by decide, rfl,
    C13_delete_excises_one_entry specConfig (by decide) 8 vol_abc
      (after (fs_delete specConfig 8 vol_abc (bytes "b"))) (bytes "b") 2 [(bytes "a", 1)]
      [(bytes "c", 3)] (by decide) (by decide) (by decide) (by decide) rfl⟩

/-- Claim C14 (create postcondition).  The directory is the text of
well-formed records, `name` has at most `FILENAME_SIZE` bytes, none of them
NUL, `:` or `;`, and no record; a data block is free; the directory has room
in the sense of the source, `BLOCK_SIZE - strlen(buff) > MAX_KV_SIZE`.  Then
`fs_create(name)` returns 0, the block `b` it takes is the lowest free data
block, the directory text becomes the old text followed by `name:b;`, block
`b` holds `0000` (next-pointer 0, no payload), every other data block and the
open-file table are as before, and `get_head(name)` returns `b`, which is not
0. -/
theorem C14_create_postcondition (c : Config) (hc : c.ok) (hFS : c.FILENAME_SIZE ≤ 15)
    (s : Volume) (name : Text) (es : List (Text × Nat))
    (hdir : s.disk 0 = dir_text es) (hok : dir_ok c es)
    (hname : name_ok name) (hlen : name.length ≤ c.FILENAME_SIZE)
    (hnew : ∀ e ∈ es, e.1 ≠ name)
    (hfree : ∃ j, 1 ≤ j ∧ j < c.DISK_BLOCKS ∧ s.disk j = FREESTR)
    (hroom : MAX_KV_SIZE < c.BLOCK_SIZE - (s.disk 0).length) :
    ∃ b s2, fs_create c s name = some (0, s2) ∧
      (1 ≤ b ∧ b < c.DISK_BLOCKS ∧ s.disk b = FREESTR ∧
        ∀ j, 1 ≤ j → j < b → s.disk j ≠ FREESTR) ∧
      s2.disk 0 = s.disk 0 ++ name ++ [58] ++ fmt_ld b ++ [59] ∧
      s2.disk b = [48, 48, 48, 48] ∧
      get_next_blk c s2.disk (b : Int) = some 0 ∧
      (s2.disk b).drop (BLK_META_SIZE - 1) = [] ∧
      (∀ i, i ≠ 0 → i ≠ b → s2.disk i = s.disk i) ∧
      s2.open_fildes = s.open_fildes ∧
      get_head c s2.disk name = some (b : Int) ∧ (b : Int) ≠ 0 := by
  obtain ⟨j, hj⟩ := hfree
  obtain ⟨b, F, hF⟩ := free_blocks_ne_nil c s.disk j hj
  have hbmem : b ∈ free_blocks c s.disk := by simp [hF]
  obtain ⟨⟨hb1, hbD⟩, hbfree⟩ := (mem_free_blocks c s.disk b).mp hbmem
  have hD : 0 < c.DISK_BLOCKS := by omega
  have hcs : cstr name = name := cstr_name name (fun ch hch => (hname ch hch).1)
  have hsl : strlen name = name.length := strlen_name name (fun ch hch => (hname ch hch).1)
  have hokn : ∀ e ∈ es, name_ok e.1 := fun e he => (hok e he).1
  have hlook := dir_lookup_new c name es hok hlen hnew
  have hgh := get_head_dir c s.disk name es hD hdir hokn
  rw [hcs, hlook] at hgh
  have hb10 : b < 10000 := by have := hc.2.1; omega
  have hent := dir_entry_length_le name b (by omega) hb10
  have hnewlen : (s.disk 0 ++ cstr name ++ [58] ++ fmt_ld b ++ [59]).length < c.BLOCK_SIZE := by
    rw [hcs]
    simp only [List.length_append, List.length_singleton] at hent ⊢
    omega
  have hcr := fs_create_new c s name b F (by omega) hF hgh (by omega)
  rw [if_neg (by omega), if_pos hnewlen, hcs] at hcr
  have hb0 : (0 : Nat) ≠ b := by omega
  have hok2 : ∀ e ∈ es ++ [(name, b)], name_ok e.1 := by
    intro e he
    rcases List.mem_append.mp he with he | he
    · exact hokn e he
    · simp only [List.mem_singleton] at he
      subst he
      exact hname
  have htxt : s.disk 0 ++ name ++ [58] ++ fmt_ld b ++ [59] = dir_text (es ++ [(name, b)]) := by
    simp [hdir, dir_text_append, dir_entry]
  have hgh2 := get_head_dir c
    (disk_set (disk_set s.disk 0 (s.disk 0 ++ name ++ [58] ++ fmt_ld b ++ [59])) b
      [48, 48, 48, 48]) name (es ++ [(name, b)]) hD
    (by
      show disk_set (disk_set s.disk 0 (s.disk 0 ++ name ++ [58] ++ fmt_ld b ++ [59])) b
        [48, 48, 48, 48] 0 = dir_text (es ++ [(name, b)])
      simp only [disk_set, hb0, if_false, if_true]
      exact htxt) hok2
  rw [hcs, dir_lookup_append c hc.2.2.2.2.2.2.2.2.1 name name b es (by simp [strncmp_eq]) hb10
    hlook] at hgh2
  refine ⟨b, _, hcr, ⟨hb1, hbD, hbfree, free_blocks_head_lowest c s.disk b F hF⟩, ?_, ?_, ?_, ?_,
    ?_, rfl, hgh2, by omega⟩
  · simp [disk_set, hb0]
  · simp [disk_set]
  · rw [get_next_blk_nat c _ b hbD]
    simp only [disk_set, if_true]
    decide
  · simp only [disk_set, if_true]
    decide
  · intro i hi0 hib
    simp [disk_set, hi0, hib]

/-- Witness of C14: `b.txt` is created on the volume that holds `a.txt`. -/
theorem C14_create_postcondition_witness :
    vol_created.disk 0 = bytes "a.txt:1;" ∧
    ∃ b s2, fs_create specConfig vol_created b_txt = some (0, s2) ∧
      (1 ≤ b ∧ b < specConfig.DISK_BLOCKS ∧ vol_created.disk b = FREESTR ∧
        ∀ j, 1 ≤ j → j < b → vol_created.disk j ≠ FREESTR) ∧
      s2.disk 0 = vol_created.disk 0 ++ b_txt ++ [58] ++ fmt_ld b ++ [59] ∧
      s2.disk b = [48, 48, 48, 48] ∧
      get_next_blk specConfig s2.disk (b : Int) = some 0 ∧
      (s2.disk b).drop (BLK_META_SIZE - 1) = [] ∧
      (∀ i, i ≠ 0 → i ≠ b → s2.disk i = vol_created.disk i) ∧
      s2.open_fildes = vol_created.open_fildes ∧
      get_head specConfig s2.disk b_txt = some (b : Int) ∧ (b : Int) ≠ 0 :=
  ⟨by decide,
    C14_create_postcondition specConfig (by decide) (by decide) vol_created b_txt [(a_txt, 1)]
      (by decide) (by decide) (by decide) (by decide) (by decide) ⟨2, by decide⟩ (by decide)⟩

/-- Claim C15 as stated fails, in three ways.  On a volume without a free
block the name `a` has a record, and `fs_create("a")` returns `NO_BLOCKS`: the
search for a free block comes before the look-up.  A name with a `:` is not
found again by `get_head`: on the fresh volume `fs_create("a:b")` returns 0
twice and the directory names it twice.  And a record whose head does not fit
an `int` is not read back: in the record `a:4294967288;` the number is
`2^32 + NO_FILE`, for which `atoi` has no defined result (it is reduced to
`NO_FILE` by glibc), so `fs_create("a")` is not determined to return
`FILE_EXISTS`. -/
theorem C15_duplicate_not_rejected :
    get_head specConfig vol_no_free.disk (bytes "a") = some 1 ∧
    fs_create specConfig vol_no_free (bytes "a") =
      some (specConfig.NO_BLOCKS, vol_no_free) ∧
    specConfig.NO_BLOCKS ≠ specConfig.FILE_EXISTS ∧
    fs_create specConfig fresh (bytes "a:b") =
      some (0, after (fs_create specConfig fresh (bytes "a:b"))) ∧
    (after (fs_create specConfig fresh (bytes "a:b"))).disk 0 = bytes "a:b:1;" ∧
    code (fs_create specConfig (after (fs_create specConfig fresh (bytes "a:b"))) (bytes "a:b")) =
      some 0 ∧
    (after (fs_create specConfig (after (fs_create specConfig fresh (bytes "a:b")))
      (bytes "a:b"))).disk 0 = bytes "a:b:1;a:b:2;" ∧
    vol_big_head.disk 0 = dir_text [(bytes "a", 4294967288)] ∧
    atoi_number (bytes "4294967288") = 4294967296 + specConfig.NO_FILE ∧
    atoi (bytes "4294967288") = none ∧
    get_free_bl specConfig vol_big_head.disk = 1 ∧
    fs_create specConfig vol_big_head (bytes "a") = none :=
  ⟨by decide, fs_create_no_free (bytes "a") (by decide), by decide, rfl, by decide, by decide,
    by decide, by decide, by decide, by decide, by decide, rfl⟩

/-- Claim C15, amended: on a volume with a free data block whose directory is
the text of records with names without NUL, `:` or `;` and with heads that
are block indices (below `DISK_BLOCKS`), `fs_create` of a name of at most
`FILENAME_SIZE` bytes that has a record returns `FILE_EXISTS` and leaves the
whole state as it was. -/
theorem C15_create_rejects_duplicates (c : Config) (hc : c.ok) (s : Volume) (name : Text)
    (es : List (Text × Nat)) (hdir : s.disk 0 = dir_text es)
    (hok : ∀ e ∈ es, name_ok e.1) (hheads : ∀ e ∈ es, e.2 < c.DISK_BLOCKS)
    (hlen : name.length ≤ c.FILENAME_SIZE)
    (hex : ∃ e ∈ es, e.1 = name)
    (hfree : ∃ j, 1 ≤ j ∧ j < c.DISK_BLOCKS ∧ s.disk j = FREESTR) :
    fs_create c s name = some (c.FILE_EXISTS, s) := by
  obtain ⟨j, hj⟩ := hfree
  obtain ⟨b, F, hF⟩ := free_blocks_ne_nil c s.disk j hj
  have hD : 0 < c.DISK_BLOCKS := by omega
  have hname : name_ok name := by
    obtain ⟨e, he, rfl⟩ := hex
    exact hok e he
  have hcs : cstr name = name := cstr_name name (fun ch hch => (hname ch hch).1)
  have hsl : strlen name = name.length := strlen_name name (fun ch hch => (hname ch hch).1)
  have hgh := get_head_dir c s.disk name es hD hdir hok
  obtain ⟨h, hh⟩ := dir_lookup_old c name es
    (fun e he => by have := hheads e he; have := hc.2.1; omega) hex
  rw [hcs, hh] at hgh
  have hne : (h : Int) ≠ c.NO_FILE := by
    have := hc.2.2.2.2.2.2.2.2.1
    omega
  unfold fs_create
  rw [if_neg (by omega), get_free_bl_eq, hF]
  simp [hgh, hne]

/-- Witness of the amended C15: `a.txt` is created a second time. -/
theorem C15_create_rejects_duplicates_witness :
    vol_created.disk 0 = bytes "a.txt:1;" ∧
    fs_create specConfig vol_created a_txt = some (specConfig.FILE_EXISTS, vol_created) :=
  ⟨by decide,
    C15_create_rejects_duplicates specConfig (by decide) vol_created a_txt [(a_txt, 1)]
      (by decide) (by decide) (by decide) (by decide) ⟨(a_txt, 1), by decide, rfl⟩
      ⟨2, by decide⟩⟩

/-- Claim C16 (DirectoryFull is atomic).  First part: let `fs_create(name)`
reach the test of the directory's room, that is, `name` has at most
`FILENAME_SIZE` bytes, `get_free_bl` returns a block `b` (the head of the new
record) and `get_head` finds no record of `name`.  If the directory text
followed by `name:b;` has `BLOCK_SIZE` bytes or more, so that with its
terminator it does not fit the directory block, `fs_create(name)` returns
`SO_MUCH_FILE` and leaves the state as it was.  Second part, for every volume
state and every name: whenever `fs_create` returns a value other than 0, the
whole state (directory block, data blocks, open-file table) is as it was. -/
theorem C16_directory_full_is_atomic (c : Config) (s : Volume) :
    (c.ok → c.FILENAME_SIZE ≤ 15 → (s.disk 0).length < c.BLOCK_SIZE →
      ∀ (name : List Nat) (b : Nat), strlen name ≤ c.FILENAME_SIZE →
        get_free_bl c s.disk = (b : Int) →
        get_head c s.disk name = some c.NO_FILE →
        c.BLOCK_SIZE ≤ (s.disk 0 ++ cstr name ++ [58] ++ fmt_ld b ++ [59]).length →
        fs_create c s name = some (c.SO_MUCH_FILE, s)) ∧
    (∀ (name : List Nat) (r : Int) (s2 : Volume),
      fs_create c s name = some (r, s2) → r ≠ 0 → s2 = s) := by
  refine ⟨?_, fun name r s2 h hr => fs_create_error_unchanged c s s2 name r h hr⟩
  intro hc hFS hfit name b hlen hb hnew hexceed
  obtain ⟨F, hF⟩ := get_free_bl_some c s.disk b hc.2.2.2.2.2.2.2.2.2.1 hb
  have hbmem : b ∈ free_blocks c s.disk := by simp [hF]
  obtain ⟨⟨_, hbD⟩, _⟩ := (mem_free_blocks c s.disk b).mp hbmem
  have hb10 : b < 10000 := by have := hc.2.1; omega
  have hent := dir_entry_length_le (cstr name) b (by unfold strlen at hlen; omega) hb10
  rw [fs_create_new c s name b F hlen hF hnew hfit, if_pos]
  simp only [List.length_append, List.length_singleton] at hent hexceed
  omega

/-- Witness of C16: on `vol_seven` (directory of 123 bytes, free block 8) the
new name `abc` would need 129 bytes and is refused with `SO_MUCH_FILE`; and on
the volume that holds `a.txt`, `fs_create("a.txt")`, which returns
`FILE_EXISTS`, leaves the state as it was. -/
theorem C16_directory_full_is_atomic_witness :
    (vol_seven.disk 0 ++ cstr (bytes "abc") ++ [58] ++ fmt_ld 8 ++ [59]).length = 129 ∧
    fs_create specConfig vol_seven (bytes "abc") = some (specConfig.SO_MUCH_FILE, vol_seven) ∧
    fs_create specConfig vol_created a_txt =
      some (specConfig.FILE_EXISTS, after (fs_create specConfig vol_created a_txt)) ∧
    after (fs_create specConfig vol_created a_txt) = vol_created :=
  ⟨by decide,
    (C16_directory_full_is_atomic specConfig vol_seven).1 (by decide) (by decide) (by decide)
      (bytes "abc") 8 (by decide) (by decide) (by decide) (by decide),
    rfl,
    (C16_directory_full_is_atomic specConfig vol_created).2 a_txt specConfig.FILE_EXISTS
      (after (fs_create specConfig vol_created a_txt)) rfl (by decide)⟩

/-- Claim C17 at a failing input.  The table of `specConfig` has the slots 0 to
31.  `fs_close(32)` is not rejected: the guard is `fildes > MAX_DESC`, so the
source goes on to free and overwrite `fds[32]`, outside the table, which has
no defined result.  `fs_close(33)` and `fs_close(-1)` return `BAD_FILDES` and
leave the state as it was. -/
theorem C17_close_accepts_max_desc :
    specConfig.MAX_DESC = 32 ∧
    fs_close specConfig vol_hello 32 = none ∧
    fs_close specConfig vol_hello 32 ≠ some (specConfig.BAD_FILDES, vol_hello) ∧
    fs_close specConfig vol_hello 33 = some (specConfig.BAD_FILDES, vol_hello) ∧
    fs_close specConfig vol_hello (-1) = some (specConfig.BAD_FILDES, vol_hello) :=
  ⟨rfl, rfl, by simp [show fs_close specConfig vol_hello 32 = none from rfl], rfl, rfl⟩

/-- Claim C18 at a failing input.  `data124` (`ABCDEFG`, then `x`) is written to
the new file.  Its first 123 bytes fill block 1, which is then linked to
block 2; after that the payload of block 1 is `BCDEFG...`, 122 bytes: the
link prints `contents + BLK_META_SIZE`, one byte behind the start of the
payload at `BLK_META_SIZE - 1`.  Reading the file back gives 123 bytes that
start with `BCDEFG`. -/
theorem C18_link_drops_first_payload_byte :
    fs_write specConfig vol_opened 0 data124 124 = some (124, vol_linked) ∧
    vol_linked.disk 1 = bytes "0002" ++ bytes "BCDEFG" ++ List.replicate 116 120 ∧
    (vol_linked.disk 1).drop (BLK_META_SIZE - 1) = (data124.take specConfig.capacity).drop 1 ∧
    (vol_linked.disk 1).drop (BLK_META_SIZE - 1) ≠ data124.take specConfig.capacity ∧
    vol_linked.disk 2 = bytes "0000x" ∧
    code (fs_lseek specConfig vol_linked 0 0) = some 0 ∧
    outcome (fs_read specConfig 8 (after (fs_lseek specConfig vol_linked 0 0)) 0 (zeros 128) 124) =
      some (123, bytes "BCDEFG" ++ List.replicate 117 120 ++ zeros 5) :=
  ⟨rfl, by decide, by decide, by decide, by decide, by decide, by decide⟩

/-- Claim C19 (directory length bound).  Let the directory text be shorter than
`BLOCK_SIZE`, so that with its terminator it fits the directory block.
`fs_create`: for every name for which the look-up in the directory has a
result, `fs_create` has a result (the text it prints does not overrun its
`BLOCK_SIZE` buffer) and the directory text it leaves is shorter than
`BLOCK_SIZE`.  `fs_delete`: whatever `fs_delete` returns, the directory text
it leaves is not longer than before, and shorter when it returns 0; and on a
well-formed volume (directory of well-formed records, the file's chain ends
within `fuel` steps, the file is not open, the table's count agrees with its
slots) `fs_delete` of an existing file has the result 0. -/
theorem C19_directory_text_fits (c : Config) (hc : c.ok) (hFS : c.FILENAME_SIZE ≤ 15)
    (fuel : Nat) (s : Volume) (hfit : (s.disk 0).length < c.BLOCK_SIZE) :
    (∀ name : List Nat, get_head c s.disk name ≠ none →
      ∃ r s2, fs_create c s name = some (r, s2) ∧ (s2.disk 0).length < c.BLOCK_SIZE) ∧
    (∀ (name : List Nat) (r : Int) (s2 : Volume), fs_delete c fuel s name = some (r, s2) →
      (s2.disk 0).length ≤ (s.disk 0).length ∧ (s2.disk 0).length < c.BLOCK_SIZE ∧
      (r = 0 → (s2.disk 0).length < (s.disk 0).length)) ∧
    (∀ (name : Text) (h : Nat) (P S : List (Text × Nat)) (bs : List Nat),
      s.disk 0 = dir_text (P ++ (name, h) :: S) → dir_ok c (P ++ (name, h) :: S) →
      (∀ e ∈ P, e.1 ≠ name) → is_open c s.open_fildes name = 0 →
      (s.open_fildes.num_open < c.MAX_DESC →
        ∃ i, i < c.MAX_DESC ∧ s.open_fildes.fds i = none) →
      Chain c s.disk (h : Int) (h :: bs) → bs.length + 1 < fuel →
      ∃ s2, fs_delete c fuel s name = some (0, s2) ∧
        (s2.disk 0).length < (s.disk 0).length) := by
  have hdel : ∀ (name : List Nat) (r : Int) (s2 : Volume),
      fs_delete c fuel s name = some (r, s2) →
      (s2.disk 0).length ≤ (s.disk 0).length ∧ (r = 0 → (s2.disk 0).length < (s.disk 0).length) := by
    intro name r s2 h
    have hAO : c.ALREADY_OPEN < 0 := hc.2.2.1
    rcases fs_delete_cases c fuel s s2 name r h with ⟨hr, rfl⟩ | ⟨hr, rfl⟩ | ⟨_, _, buff2, hb2, _, hd0⟩
    · exact ⟨le_refl _, fun h0 => by omega⟩
    · exact ⟨le_refl _, fun h0 => by omega⟩
    · have := fs_delete_scan_length c (cstr name) _ [] (s.disk 0) buff2 hb2
      simp only [List.length_nil, Nat.zero_add] at this
      rw [hd0]
      exact ⟨by omega, fun _ => this⟩
  refine ⟨fun name hgh => fs_create_returns c hc hFS s name hfit hgh, ?_, ?_⟩
  · intro name r s2 h
    obtain ⟨h1, h2⟩ := hdel name r s2 h
    exact ⟨h1, by omega, h2⟩
  · intro name h P S bs hdir hok hP hclosed htable hchain hfuel
    obtain ⟨s2, hs2, _⟩ :=
      fs_delete_returns c hc fuel s name h P S bs hdir hfit hok hP hclosed htable hchain hfuel
    exact ⟨s2, hs2, (hdel name 0 s2 hs2).2 rfl⟩

/-- Witness of C19 on the volume with the files `a`, `b` and `c` (directory
`a:1;b:2;c:3;`, nothing open): `fs_create("d")` has a result, and
`fs_delete("b")` returns 0 and leaves a shorter directory text. -/
theorem C19_directory_text_fits_witness :
    vol_abc.disk 0 = bytes "a:1;b:2;c:3;" ∧
    (∃ r s2, fs_create specConfig vol_abc (bytes "d") = some (r, s2) ∧
      (s2.disk 0).length < specConfig.BLOCK_SIZE) ∧
    fs_delete specConfig 8 vol_abc (bytes "b") =
      some (0, after (fs_delete specConfig 8 vol_abc (bytes "b"))) ∧
    (((after (fs_delete specConfig 8 vol_abc (bytes "b"))).disk 0).length ≤
        (vol_abc.disk 0).length ∧
      ((after (fs_delete specConfig 8 vol_abc (bytes "b"))).disk 0).length <
        specConfig.BLOCK_SIZE ∧
      ((0 : Int) = 0 →
        ((after (fs_delete specConfig 8 vol_abc (bytes "b"))).disk 0).length <
          (vol_abc.disk 0).length)) ∧
    ∃ s2, fs_delete specConfig 8 vol_abc (bytes "b") = some (0, s2) ∧
      (s2.disk 0).length < (vol_abc.disk 0).length :=
  ⟨by decide,
    (C19_directory_text_fits specConfig (by decide) (by decide) 8 vol_abc (by decide)).1
      (bytes "d") (by decide),
    rfl,
    (C19_directory_text_fits specConfig (by decide) (by decide) 8 vol_abc (by decide)).2.1
      (bytes "b") 0 (after (fs_delete specConfig 8 vol_abc (bytes "b"))) rfl,
    (C19_directory_text_fits specConfig (by decide) (by decide) 8 vol_abc (by decide)).2.2
      (bytes "b") 2 [(bytes "a", 1)] [(bytes "c", 3)] [] (by decide) (by decide) (by decide)
      (by decide) (fun _ => ⟨0, by decide, rfl⟩) (by decide) (by decide)⟩

/-- Claim C20 at a failing input.  The file has the chain `[1, 2]` and size 256.
`fs_truncate(fd, 128)` returns 0 and overwrites block 2 with the free marker,
but block 1 still names block 2 as its successor: from the head of the file,
which is still in the directory, a free block is reached, and no chain ends
at a next-pointer 0. -/
theorem C20_truncate_leaves_dangling_pointer :
    Chain specConfig vol_two.disk 1 [1, 2] ∧
    fs_get_filesize specConfig 8 vol_two 0 = some 256 ∧
    code (fs_truncate specConfig 8 vol_two 0 128) = some 0 ∧
    get_head specConfig (after (fs_truncate specConfig 8 vol_two 0 128)).disk a_txt = some 1 ∧
    get_next_blk specConfig (after (fs_truncate specConfig 8 vol_two 0 128)).disk 1 = some 2 ∧
    (after (fs_truncate specConfig 8 vol_two 0 128)).disk 2 = FREESTR ∧
    ¬ ∃ bs, Chain specConfig (after (fs_truncate specConfig 8 vol_two 0 128)).disk 1 bs :=
  ⟨by decide, by decide, by decide, by decide, by decide, by decide, by
    rintro ⟨bs, hbs⟩
    have h2 : (after (fs_truncate specConfig 8 vol_two 0 128)).disk 2 = FREESTR := by decide
    have hn : atoi_number (((after (fs_truncate specConfig 8 vol_two 0 128)).disk 1).take
        (BLK_META_SIZE - 1)) = 2 := by decide
    cases bs with
    | nil => simp [Chain] at hbs
    | cons b rest =>
      obtain ⟨hb, _, _, hrest⟩ := hbs
      have hb1 : b = 1 := by omega
      subst hb1
      rw [hn] at hrest
      cases rest with
      | nil => simp [Chain] at hrest
      | cons b2 rest2 =>
        have hb2 : b2 = 2 := by have := hrest.1; omega
        subst hb2
        exact chain_mem_not_free specConfig _ _ _ 2 hrest (by simp) h2⟩

end FSys
